import Mathlib

/-!
Shallow embedding of the StellarForge C++ N-body core
(`src/cpp_engine/include/physics_engine.h`, `src/cpp_engine/src/physics_engine.cpp`,
`src/cpp_engine/src/barnes_hut_tree.cpp`) over exact real arithmetic.
Single-precision floats are modelled as real numbers; `size_t` indices as `ℕ`
(with `int particle_index` as `ℤ`, −1 meaning "internal node" as in the source);
numeric comparisons and branches are translated literally.  The recursive
octree insertion of the source is not structurally terminating, so it is
embedded with an explicit fuel parameter returning `none` when the fuel runs
out; every recursive call of the source consumes one unit of fuel.
-/

namespace StellarForge

open scoped Classical

noncomputable section

/-- A 3-component vector of reals, modelling `std::array<float, 3>`. -/
abbrev Vec3 : Type := ℝ × ℝ × ℝ

/-- Squared Euclidean distance between two `Vec3`s, written out componentwise
exactly as the source computes `dx*dx + dy*dy + dz*dz`. -/
def sqDist (a b : Vec3) : ℝ :=
  (a.1 - b.1) * (a.1 - b.1) + (a.2.1 - b.2.1) * (a.2.1 - b.2.1) +
    (a.2.2 - b.2.2) * (a.2.2 - b.2.2)

/-- Structure-of-arrays particle store (`struct ParticleSystem`). -/
structure ParticleSystem where
  positions : List Vec3
  velocities : List Vec3
  accelerations : List Vec3
  masses : List ℝ
  types : List ℤ

namespace ParticleSystem

/-- `ParticleSystem::size`: the source returns `positions.size()`. -/
def size (ps : ParticleSystem) : ℕ := ps.positions.length

/-- The invariant stated by the spec: all five arrays have identical length. -/
def eqLen (ps : ParticleSystem) : Prop :=
  ps.velocities.length = ps.positions.length ∧
  ps.accelerations.length = ps.positions.length ∧
  ps.masses.length = ps.positions.length ∧
  ps.types.length = ps.positions.length

/-- `std::vector::resize`: keep the first `n` entries, pad with
value-initialised entries (zero) when growing. -/
def vresize {α : Type} (zero : α) (l : List α) (n : ℕ) : List α :=
  l.take n ++ List.replicate (n - l.length) zero

/-- `ParticleSystem::resize`. -/
def resize (ps : ParticleSystem) (n : ℕ) : ParticleSystem where
  positions := vresize (0, 0, 0) ps.positions n
  velocities := vresize (0, 0, 0) ps.velocities n
  accelerations := vresize (0, 0, 0) ps.accelerations n
  masses := vresize 0 ps.masses n
  types := vresize 0 ps.types n

end ParticleSystem

/-- Octree node (`struct OctreeNode`).  The eight child pointers are a list of
eight optional subtrees indexed by octant code. -/
inductive OTree : Type where
  | mk (center : Vec3) (size : ℝ) (com : Vec3) (totalMass : ℝ)
       (particleIndex : ℤ) (children : List (Option OTree))

namespace OTree

def center : OTree → Vec3
  | .mk c _ _ _ _ _ => c

def size : OTree → ℝ
  | .mk _ s _ _ _ _ => s

def com : OTree → Vec3
  | .mk _ _ cm _ _ _ => cm

def totalMass : OTree → ℝ
  | .mk _ _ _ m _ _ => m

def particleIndex : OTree → ℤ
  | .mk _ _ _ _ pi _ => pi

def children : OTree → List (Option OTree)
  | .mk _ _ _ _ _ ch => ch

/-- The `OctreeNode` constructor: fresh node with zero mass, zero centre of
mass, `particle_index = -1` and eight null children. -/
def newNode (c : Vec3) (s : ℝ) : OTree :=
  .mk c s (0, 0, 0) 0 (-1) (List.replicate 8 none)

/-- `OctreeNode::is_leaf`: `particle_index >= 0`. -/
def isLeaf (t : OTree) : Prop := 0 ≤ t.particleIndex

/-- `OctreeNode::is_empty`: `particle_index < 0 && total_mass == 0.0f`. -/
def isEmpty (t : OTree) : Prop := t.particleIndex < 0 ∧ t.totalMass = 0

/-- Replace the stored particle index. -/
def withIndex : OTree → ℤ → OTree
  | .mk c s cm m _ ch, pi => .mk c s cm m pi ch

/-- Replace child `o` (the source writes through `children[octant]`). -/
def setChild : OTree → ℕ → OTree → OTree
  | .mk c s cm m pi ch, o, t => .mk c s cm m pi (ch.set o (some t))

/-- Read child `o`; `none` models a null `unique_ptr`. -/
def getChild (t : OTree) (o : ℕ) : Option OTree := t.children.getD o none

end OTree

/-- `get_octant`: bit 4 for x ≥ center.x, bit 2 for y, bit 1 for z. -/
def getOctant (point c : Vec3) : ℕ :=
  (if c.1 ≤ point.1 then 4 else 0) +
  (if c.2.1 ≤ point.2.1 then 2 else 0) +
  (if c.2.2 ≤ point.2.2 then 1 else 0)

/-- `get_octant_center`: offset each axis by ±(parent_size * 0.25). -/
def getOctantCenter (c : Vec3) (parentSize : ℝ) (o : ℕ) : Vec3 :=
  (c.1 + (if o / 4 % 2 = 1 then parentSize / 4 else -(parentSize / 4)),
   c.2.1 + (if o / 2 % 2 = 1 then parentSize / 4 else -(parentSize / 4)),
   c.2.2 + (if o % 2 = 1 then parentSize / 4 else -(parentSize / 4)))

/-- `PhysicsEngine::insert_particle_into_tree`, with explicit fuel.  The
source recursion: an "empty" node (by `is_empty`, which tests
`particle_index < 0 && total_mass == 0` — during construction `total_mass`
is always still `0`) stores the particle; a leaf is subdivided by pushing its
stored particle into the matching child and then control falls through to
the common path that inserts the new particle into its own child.  Each
source-level recursive call costs one unit of fuel; `none` means the fuel
ran out (the source would still be recursing). -/
def insertParticleIntoTree (P : List Vec3) :
    ℕ → OTree → ℕ → Option OTree
  | 0, _, _ => none
  | fuel + 1, node, particleIdx =>
    if node.isEmpty then
      some (node.withIndex particleIdx)
    else
      let afterSplit : Option OTree :=
        if node.isLeaf then
          let oldIdx : ℕ := node.particleIndex.toNat
          let node1 := node.withIndex (-1)
          let o := getOctant (P.getD oldIdx (0, 0, 0)) node1.center
          let child :=
            (node1.getChild o).getD
              (OTree.newNode (getOctantCenter node1.center node1.size o)
                (node1.size * (1 / 2)))
          match insertParticleIntoTree P fuel child oldIdx with
          | none => none
          | some child1 => some (node1.setChild o child1)
        else
          some node
      match afterSplit with
      | none => none
      | some node2 =>
        let o := getOctant (P.getD particleIdx (0, 0, 0)) node2.center
        let child :=
          (node2.getChild o).getD
            (OTree.newNode (getOctantCenter node2.center node2.size o)
              (node2.size * (1 / 2)))
        match insertParticleIntoTree P fuel child particleIdx with
        | none => none
        | some child1 => some (node2.setChild o child1)

/-- `std::numeric_limits<float>::max()`. -/
def floatMax : ℝ := (2 - 2 ^ (-(23 : ℤ))) * 2 ^ (127 : ℕ)

/-- `PhysicsEngine::build_octree`: bounding box scan, root with 10% padding,
then insertion of every particle index in order.  `none` models both the
source's `nullptr` for zero particles and insertion running out of fuel. -/
def buildOctree (P : List Vec3) (fuel : ℕ) : Option OTree :=
  if P.length = 0 then none
  else
    let minB := P.foldl
      (fun acc p => (min acc.1 p.1, min acc.2.1 p.2.1, min acc.2.2 p.2.2))
      (floatMax, floatMax, floatMax)
    let maxB := P.foldl
      (fun acc p => (max acc.1 p.1, max acc.2.1 p.2.1, max acc.2.2 p.2.2))
      (-floatMax, -floatMax, -floatMax)
    let c : Vec3 := ((minB.1 + maxB.1) * (1 / 2), (minB.2.1 + maxB.2.1) * (1 / 2),
      (minB.2.2 + maxB.2.2) * (1 / 2))
    let sz := max (max (max 0 (maxB.1 - minB.1)) (maxB.2.1 - minB.2.1))
      (maxB.2.2 - minB.2.2) * (11 / 10)
    (List.range P.length).foldl
      (fun acc i => acc.bind fun t => insertParticleIntoTree P fuel t i)
      (some (OTree.newNode c sz))

mutual

/-- `PhysicsEngine::compute_node_mass_distribution`.  A leaf (by `is_leaf`,
even one that still has children) takes its particle's mass and position;
for other nodes the children are aggregated post-order and the centre of
mass is only rescaled when the accumulated mass is positive. -/
def computeNodeMassDistribution (P : List Vec3) (M : List ℝ) :
    OTree → OTree
  | .mk c s cm _ pi ch =>
    if 0 ≤ pi then
      .mk c s (P.getD pi.toNat (0, 0, 0)) (M.getD pi.toNat 0) pi ch
    else
      let ch1 := massDistChildren P M ch
      let total := ch1.foldl
        (fun acc oc => match oc with
          | none => acc
          | some t => acc + t.totalMass) 0
      let wsum : Vec3 := ch1.foldl
        (fun acc oc => match oc with
          | none => acc
          | some t =>
            (acc.1 + t.com.1 * t.totalMass, acc.2.1 + t.com.2.1 * t.totalMass,
             acc.2.2 + t.com.2.2 * t.totalMass)) (0, 0, 0)
      let cm1 := if 0 < total then
          (wsum.1 / total, wsum.2.1 / total, wsum.2.2 / total)
        else cm
      .mk c s cm1 total pi ch1

/-- Post-order mass aggregation over the eight child slots, in order. -/
def massDistChildren (P : List Vec3) (M : List ℝ) :
    List (Option OTree) → List (Option OTree)
  | [] => []
  | none :: r => none :: massDistChildren P M r
  | some t :: r => some (computeNodeMassDistribution P M t) :: massDistChildren P M r

end

mutual

/-- `PhysicsEngine::compute_acceleration_from_tree`: the Barnes–Hut walk for
particle `i`, threading the accumulated acceleration exactly as the source
mutates its `acceleration` reference. -/
def computeAccelerationFromTree (P : List Vec3) (G theta softening : ℝ)
    (i : ℕ) : OTree → Vec3 → Vec3
  | .mk c s cm m pi ch, acc =>
    let t := OTree.mk c s cm m pi ch
    if t.isEmpty then acc
    else
      let p := P.getD i (0, 0, 0)
      let dx := t.com.1 - p.1
      let dy := t.com.2.1 - p.2.1
      let dz := t.com.2.2 - p.2.2
      let dist2 := dx * dx + dy * dy + dz * dz + softening * softening
      let dist := Real.sqrt dist2
      if t.isLeaf ∨ t.size / dist < theta then
        if t.isLeaf ∧ t.particleIndex = (i : ℤ) then acc
        else
          let factor := G * t.totalMass / (dist2 * dist)
          (acc.1 + factor * dx, acc.2.1 + factor * dy, acc.2.2 + factor * dz)
      else
        accelChildren P G theta softening i ch acc

/-- Fold of the tree walk over the child slots in octant-index order. -/
def accelChildren (P : List Vec3) (G theta softening : ℝ) (i : ℕ) :
    List (Option OTree) → Vec3 → Vec3
  | [], acc => acc
  | none :: r, acc => accelChildren P G theta softening i r acc
  | some t :: r, acc =>
    accelChildren P G theta softening i r
      (computeAccelerationFromTree P G theta softening i t acc)

end

/-- `enum class ComputeBackend`. -/
inductive ComputeBackend : Type where
  | cpuSingleThread
  | cpuOpenmp
  | cuda
  | openglCompute
deriving DecidableEq

/-- The mutable engine state: particle store, backend tag and the physics
parameters of `class PhysicsEngine` (the wall-clock timer is not part of the
numerical state modelled here). -/
structure PhysicsEngine where
  particles : ParticleSystem
  currentBackend : ComputeBackend
  G : ℝ
  softening : ℝ
  theta : ℝ
  collisionsEnabled : Bool

namespace PhysicsEngine

/-- A freshly constructed engine: empty store, `openmp` backend, `G = 1`,
`ε = 0.01`, `θ = 0.5`, collisions disabled. -/
def new : PhysicsEngine where
  particles := ⟨[], [], [], [], []⟩
  currentBackend := .cpuOpenmp
  G := 1
  softening := 1 / 100
  theta := 1 / 2
  collisionsEnabled := false

/-- `PhysicsEngine::initialize` (named `initEngine` here): resize the store
and zero the accelerations.  (The C++ loop writes zeroes into the first
`particle_count` entries of `accelerations`, which after `resize` is the
whole array.) -/
def initEngine (e : PhysicsEngine) (particleCount : ℕ)
    (backend : ComputeBackend) : PhysicsEngine :=
  let ps := e.particles.resize particleCount
  { e with
    particles := { ps with
      accelerations := List.replicate particleCount (0, 0, 0) }
    currentBackend := backend }

/-- `PhysicsEngine::set_positions`: resizes only the position array and
copies the host buffer in.  The buffer is modelled as the list of its `count`
rows, so resize-then-copy is exactly replacement. -/
def set_positions (e : PhysicsEngine) (buf : List Vec3) : PhysicsEngine :=
  { e with particles := { e.particles with positions := buf } }

/-- `PhysicsEngine::set_velocities`. -/
def set_velocities (e : PhysicsEngine) (buf : List Vec3) : PhysicsEngine :=
  { e with particles := { e.particles with velocities := buf } }

/-- `PhysicsEngine::set_masses`. -/
def set_masses (e : PhysicsEngine) (buf : List ℝ) : PhysicsEngine :=
  { e with particles := { e.particles with masses := buf } }

/-- `PhysicsEngine::set_types`. -/
def set_types (e : PhysicsEngine) (buf : List ℤ) : PhysicsEngine :=
  { e with particles := { e.particles with types := buf } }

/-- `PhysicsEngine::get_particle_count` = `particles_.size()` =
`positions.size()`. -/
def get_particle_count (e : PhysicsEngine) : ℕ := e.particles.size

/-- `PhysicsEngine::get_positions`: writes `particles_.size()` rows of the
position array into the host buffer. -/
def get_positions (e : PhysicsEngine) : List Vec3 :=
  (List.range e.particles.size).map (fun i => e.particles.positions.getD i (0, 0, 0))

/-- `PhysicsEngine::get_velocities` (the loop bound is `particles_.size()`,
i.e. the length of the position array). -/
def get_velocities (e : PhysicsEngine) : List Vec3 :=
  (List.range e.particles.size).map (fun i => e.particles.velocities.getD i (0, 0, 0))

/-- `PhysicsEngine::get_masses`. -/
def get_masses (e : PhysicsEngine) : List ℝ :=
  (List.range e.particles.size).map (fun i => e.particles.masses.getD i 0)

/-- `PhysicsEngine::get_types`. -/
def get_types (e : PhysicsEngine) : List ℤ :=
  (List.range e.particles.size).map (fun i => e.particles.types.getD i 0)

/-- `PhysicsEngine::add_particle`: push one row onto each of the five
arrays, with zero acceleration. -/
def add_particle (e : PhysicsEngine) (pos vel : Vec3) (mass : ℝ)
    (ty : ℤ) : PhysicsEngine :=
  { e with particles :=
    { positions := e.particles.positions ++ [pos]
      velocities := e.particles.velocities ++ [vel]
      accelerations := e.particles.accelerations ++ [(0, 0, 0)]
      masses := e.particles.masses ++ [mass]
      types := e.particles.types ++ [ty] } }

/-- `PhysicsEngine::remove_particle`: silent no-op when the index is out of
range, otherwise erase row `index` from all five arrays. -/
def remove_particle (e : PhysicsEngine) (index : ℕ) : PhysicsEngine :=
  if e.particles.size ≤ index then e
  else
    { e with particles :=
      { positions := e.particles.positions.eraseIdx index
        velocities := e.particles.velocities.eraseIdx index
        accelerations := e.particles.accelerations.eraseIdx index
        masses := e.particles.masses.eraseIdx index
        types := e.particles.types.eraseIdx index } }

/-- `PhysicsEngine::reset`: zero the accelerations (the loop bound is
`particles_.size()`, and states with all five arrays of equal length are the
ones reachable through the host API, so the whole array is replaced). -/
def reset (e : PhysicsEngine) : PhysicsEngine :=
  { e with particles := { e.particles with
    accelerations := List.replicate e.particles.size (0, 0, 0) } }

/-- `PhysicsEngine::compute_accelerations_barnes_hut`: build the octree
(`none` = no particles: return with the store untouched), aggregate masses,
then recompute each particle's acceleration from zero.  The fuel feeds the
octree construction; `none` means construction ran out of fuel. -/
def compute_accelerations_barnes_hut (fuel : ℕ) (e : PhysicsEngine) :
    Option PhysicsEngine :=
  if e.particles.size = 0 then some e
  else
    match buildOctree e.particles.positions fuel with
    | none => none
    | some tree =>
      let tree1 := computeNodeMassDistribution e.particles.positions
        e.particles.masses tree
      some { e with particles := { e.particles with
        accelerations := (List.range e.particles.size).map fun i =>
          computeAccelerationFromTree e.particles.positions e.G e.theta
            e.softening i tree1 (0, 0, 0) } }

/-- `PhysicsEngine::integrate_verlet`: per particle and per axis,
`position += velocity*dt + 0.5*acceleration*dt*dt` then
`velocity += acceleration*dt`.  The loop bound is `particles_.size()`
(= the length of the position array), so rows of the velocity array beyond
that bound are untouched. -/
def integrate_verlet (e : PhysicsEngine) (dt : ℝ) : PhysicsEngine :=
  let dt2 := dt * dt
  let n := e.particles.size
  let a := fun i => e.particles.accelerations.getD i (0, 0, 0)
  let v := fun i => e.particles.velocities.getD i (0, 0, 0)
  { e with particles := { e.particles with
    positions := e.particles.positions.mapIdx fun i p =>
      (p.1 + (v i).1 * dt + 1 / 2 * (a i).1 * dt2,
       p.2.1 + (v i).2.1 * dt + 1 / 2 * (a i).2.1 * dt2,
       p.2.2 + (v i).2.2 * dt + 1 / 2 * (a i).2.2 * dt2)
    velocities := e.particles.velocities.mapIdx fun i w =>
      if i < n then
        (w.1 + (a i).1 * dt, w.2.1 + (a i).2.1 * dt, w.2.2 + (a i).2.2 * dt)
      else w } }

end PhysicsEngine

/-- The state threaded through the collision scan: the velocity and mass
arrays (mutated in place by merges) and the `removed` mark vector. -/
structure CollisionState where
  velocities : List Vec3
  masses : List ℝ
  removed : List Bool

/-- Body of the inner `j` loop of `handle_collisions`: skip already-removed
partners, test squared distance against `(2*softening)^2`, and on collision
merge `j` into `i` (momentum-conserving velocity, summed mass, `j` marked). -/
def collideStep (P : List Vec3) (cd2 : ℝ) (i : ℕ) (st : CollisionState)
    (j : ℕ) : CollisionState :=
  if st.removed.getD j false then st
  else
    let pi' := P.getD i (0, 0, 0)
    let pj := P.getD j (0, 0, 0)
    let dx := pi'.1 - pj.1
    let dy := pi'.2.1 - pj.2.1
    let dz := pi'.2.2 - pj.2.2
    if dx * dx + dy * dy + dz * dz < cd2 then
      let mi := st.masses.getD i 0
      let mj := st.masses.getD j 0
      let total := mi + mj
      let vi := st.velocities.getD i (0, 0, 0)
      let vj := st.velocities.getD j (0, 0, 0)
      { velocities := st.velocities.set i
          ((vi.1 * mi + vj.1 * mj) / total, (vi.2.1 * mi + vj.2.1 * mj) / total,
           (vi.2.2 * mi + vj.2.2 * mj) / total)
        masses := st.masses.set i total
        removed := st.removed.set j true }
    else st

/-- Body of the outer `i` loop of `handle_collisions`: skip removed rows,
otherwise scan the partners `j = i+1, …, N-1` in order. -/
def collideOuter (P : List Vec3) (cd2 : ℝ) (n : ℕ) (st : CollisionState)
    (i : ℕ) : CollisionState :=
  if st.removed.getD i false then st
  else (List.range' (i + 1) (n - (i + 1))).foldl (collideStep P cd2 i) st

namespace PhysicsEngine

/-- `PhysicsEngine::handle_collisions`: the pairwise `O(N²)` merge scan
followed by removal of the marked rows in descending index order. -/
def handle_collisions (e : PhysicsEngine) : PhysicsEngine :=
  let n := e.particles.size
  let cd := e.softening * 2
  let cd2 := cd * cd
  let st0 : CollisionState :=
    ⟨e.particles.velocities, e.particles.masses, List.replicate n false⟩
  let st := (List.range n).foldl (collideOuter e.particles.positions cd2 n) st0
  let e1 := { e with particles := { e.particles with
    velocities := st.velocities
    masses := st.masses } }
  (List.range n).reverse.foldl
    (fun acc i => if st.removed.getD i false then acc.remove_particle i else acc) e1

/-- `PhysicsEngine::step_cpu_single_thread`: accelerations, then Verlet,
then (when enabled) the collision pass. -/
def step_cpu_single_thread (fuel : ℕ) (e : PhysicsEngine) (dt : ℝ) :
    Option PhysicsEngine :=
  (compute_accelerations_barnes_hut fuel e).map fun e1 =>
    let e2 := e1.integrate_verlet dt
    if e2.collisionsEnabled then e2.handle_collisions else e2

/-- `PhysicsEngine::step` (without the wall-clock timing).  In the default
build neither `USE_CUDA` nor `USE_OPENGL_COMPUTE` is defined, so the `cuda`
and `opengl` arms fall back to the CPU path, and `step_cpu_openmp` performs
the same arithmetic as the single-thread path (the pragma only schedules);
every backend therefore runs the same pipeline. -/
def step (fuel : ℕ) (e : PhysicsEngine) (dt : ℝ) : Option PhysicsEngine :=
  match e.currentBackend with
  | .cpuSingleThread => step_cpu_single_thread fuel e dt
  | .cpuOpenmp => step_cpu_single_thread fuel e dt
  | .cuda => step_cpu_single_thread fuel e dt
  | .openglCompute => step_cpu_single_thread fuel e dt

end PhysicsEngine

/-! ### Specification vocabulary for the collision pass -/

/-- Total mass of the rows in `[0, n)` not marked removed. -/
def maskedMassSum (masses : List ℝ) (removed : List Bool) (n : ℕ) : ℝ :=
  Finset.sum (Finset.range n) fun k =>
    if removed.getD k false then 0 else masses.getD k 0

/-- Keep the entries of `l` whose flag in `r` is `false`. -/
def maskFilter {α : Type} (l : List α) (r : List Bool) : List α :=
  (l.zip r).filterMap fun p => if p.2 then none else some p.1

/-- The particle store after erasing, from all five arrays, the flagged rows
at index `k` or beyond: the intermediate state of the descending removal
loop of `handle_collisions` once the indices `≥ k` have been processed. -/
def partView (ps : ParticleSystem) (r : List Bool) (k : ℕ) : ParticleSystem where
  positions := ps.positions.take k ++ maskFilter (ps.positions.drop k) (r.drop k)
  velocities := ps.velocities.take k ++ maskFilter (ps.velocities.drop k) (r.drop k)
  accelerations :=
    ps.accelerations.take k ++ maskFilter (ps.accelerations.drop k) (r.drop k)
  masses := ps.masses.take k ++ maskFilter (ps.masses.drop k) (r.drop k)
  types := ps.types.take k ++ maskFilter (ps.types.drop k) (r.drop k)

/-! ### Specification vocabulary for aggregation and momentum -/

mutual

/-- Sum of the masses of all particles stored in the subtree (the node's own
stored particle, if any, plus everything below it). -/
def subtreeMassSum (M : List ℝ) : OTree → ℝ
  | .mk _ _ _ _ pi ch =>
    (if 0 ≤ pi then M.getD pi.toNat 0 else 0) + subtreeMassSumList M ch

/-- Sum of `subtreeMassSum` over the child slots. -/
def subtreeMassSumList (M : List ℝ) : List (Option OTree) → ℝ
  | [] => 0
  | none :: r => subtreeMassSumList M r
  | some t :: r => subtreeMassSum M t + subtreeMassSumList M r

end

mutual

/-- Mass-weighted sum of the positions of all particles stored in the
subtree. -/
def subtreeWeightedSum (P : List Vec3) (M : List ℝ) : OTree → Vec3
  | .mk _ _ _ _ pi ch =>
    (if 0 ≤ pi then
      (M.getD pi.toNat 0 * (P.getD pi.toNat (0, 0, 0)).1,
       M.getD pi.toNat 0 * (P.getD pi.toNat (0, 0, 0)).2.1,
       M.getD pi.toNat 0 * (P.getD pi.toNat (0, 0, 0)).2.2)
     else (0, 0, 0)) + subtreeWeightedSumList P M ch

/-- Sum of `subtreeWeightedSum` over the child slots. -/
def subtreeWeightedSumList (P : List Vec3) (M : List ℝ) :
    List (Option OTree) → Vec3
  | [] => (0, 0, 0)
  | none :: r => subtreeWeightedSumList P M r
  | some t :: r => subtreeWeightedSum P M t + subtreeWeightedSumList P M r

end

mutual

/-- A tree is proper when every node holding a particle is a pure leaf
(all eight child slots null).  The builder violates this for `N ≥ 3`. -/
def ProperTree : OTree → Prop
  | .mk _ _ _ _ pi ch => (0 ≤ pi → ∀ c ∈ ch, c = none) ∧ ProperChildren ch

/-- `ProperTree` on every present child. -/
def ProperChildren : List (Option OTree) → Prop
  | [] => True
  | none :: r => ProperChildren r
  | some t :: r => ProperTree t ∧ ProperChildren r

end

/-- Total linear momentum `Σ mᵢ·vᵢ` of the particle store. -/
def totalMomentum (ps : ParticleSystem) : Vec3 :=
  ((List.range ps.size).map fun i =>
    (ps.masses.getD i 0 * (ps.velocities.getD i (0, 0, 0)).1,
     ps.masses.getD i 0 * (ps.velocities.getD i (0, 0, 0)).2.1,
     ps.masses.getD i 0 * (ps.velocities.getD i (0, 0, 0)).2.2)).sum

/-! ### Concrete engine states used by witnesses and counterexamples -/

/-- Positions of the three-particle configuration for C9/C4. -/
def c9P : List Vec3 := [((0 : ℝ), 0, 0), ((6 : ℝ), 0, 0), ((3 : ℝ), 0, 0)]

/-- Zero velocities (also used for the accelerations). -/
def c9V : List Vec3 := [((0 : ℝ), 0, 0), ((0 : ℝ), 0, 0), ((0 : ℝ), 0, 0)]

/-- Masses of the three-particle configuration. -/
def c9M : List ℝ := [1, 2, 1]

/-- Three particles on the x-axis with zero velocities, `G = 1`, `ε = 4`,
`θ = 0` and collisions disabled: the configuration exhibiting the broken
third insertion (the root keeps its two children but is marked as a leaf
holding particle 2). -/
def c9Engine : PhysicsEngine where
  particles := ⟨c9P, c9V, c9V, c9M, [0, 0, 0]⟩
  currentBackend := .cpuSingleThread
  G := 1
  softening := 4
  theta := 0
  collisionsEnabled := false

/-- The leaf of the `c9Engine` octree holding particle 0. -/
def c9Leaf0 : OTree :=
  .mk (27 / 20, 33 / 20, 33 / 20) (33 / 10) (0, 0, 0) 0 0 (List.replicate 8 none)

/-- The leaf of the `c9Engine` octree holding particle 1. -/
def c9Leaf1 : OTree :=
  .mk (93 / 20, 33 / 20, 33 / 20) (33 / 10) (0, 0, 0) 0 1 (List.replicate 8 none)

/-- The child slots of the `c9Engine` root: particles 0 and 1 in octants 3
and 7. -/
def c9Children : List (Option OTree) :=
  [none, none, none, some c9Leaf0, none, none, none, some c9Leaf1]

/-- The tree built for `c9Engine`: the third insertion found the root
"empty" (`particle_index < 0 && total_mass == 0` holds during build), so
the root stores particle 2 while keeping both children. -/
def c9Tree : OTree := .mk (3, 0, 0) (33 / 5) (0, 0, 0) 0 2 c9Children

/-- The `c9Engine` tree after mass aggregation: the root counts as a leaf,
so only particle 2's mass and position are recorded and the children are
never visited. -/
def c9TreeAgg : OTree := .mk (3, 0, 0) (33 / 5) (3, 0, 0) 1 2 c9Children

/-- `c9Engine` after the acceleration pass: only particle 2 exerts force. -/
def c9EngineAcc : PhysicsEngine where
  particles := ⟨c9P, c9V,
    [((3 / 125 : ℝ), 0, 0), ((-(3 / 125) : ℝ), 0, 0), ((0 : ℝ), 0, 0)],
    c9M, [0, 0, 0]⟩
  currentBackend := .cpuSingleThread
  G := 1
  softening := 4
  theta := 0
  collisionsEnabled := false

/-- The state of `c9Engine` after one `step` with `dt = 1`. -/
def c9After : PhysicsEngine where
  particles := ⟨[((3 / 250 : ℝ), 0, 0), ((1497 / 250 : ℝ), 0, 0), ((3 : ℝ), 0, 0)],
    [((3 / 125 : ℝ), 0, 0), ((-(3 / 125) : ℝ), 0, 0), ((0 : ℝ), 0, 0)],
    [((3 / 125 : ℝ), 0, 0), ((-(3 / 125) : ℝ), 0, 0), ((0 : ℝ), 0, 0)],
    [1, 2, 1], [0, 0, 0]⟩
  currentBackend := .cpuSingleThread
  G := 1
  softening := 4
  theta := 0
  collisionsEnabled := false

/-! ### The two-particle merge-law configuration (C5) -/

/-- Positions `(0,0,0)` and `(1.5·ε, 0, 0)` with `ε = 2`. -/
def c5P : List Vec3 := [((0 : ℝ), 0, 0), ((3 : ℝ), 0, 0)]

/-- Velocities `(1,0,0)` and `(-1,0,0)`. -/
def c5V : List Vec3 := [((1 : ℝ), 0, 0), ((-1 : ℝ), 0, 0)]

/-- Masses `1` and `2`. -/
def c5M : List ℝ := [1, 2]

/-- The merge-law engine: `G = 1`, `ε = 2` (so the particles sit `1.5·ε`
apart and the merge radius is `2·ε = 4`), `θ = 1/2`, collisions enabled. -/
def c5Engine : PhysicsEngine where
  particles := ⟨c5P, c5V, [((0 : ℝ), 0, 0), ((0 : ℝ), 0, 0)], c5M, [0, 0]⟩
  currentBackend := .cpuSingleThread
  G := 1
  softening := 2
  theta := 1 / 2
  collisionsEnabled := true

/-- Leaf of the merge-law octree holding particle 0 (octant 3). -/
def c5Leaf0 : OTree :=
  .mk (27 / 40, 33 / 40, 33 / 40) (33 / 20) (0, 0, 0) 0 0 (List.replicate 8 none)

/-- Leaf of the merge-law octree holding particle 1 (octant 7). -/
def c5Leaf1 : OTree :=
  .mk (93 / 40, 33 / 40, 33 / 40) (33 / 20) (0, 0, 0) 0 1 (List.replicate 8 none)

/-- Children of the merge-law root. -/
def c5Children : List (Option OTree) :=
  [none, none, none, some c5Leaf0, none, none, none, some c5Leaf1]

/-- The merge-law octree (a proper two-particle tree). -/
def c5Tree : OTree := .mk (3 / 2, 0, 0) (33 / 10) (0, 0, 0) 0 (-1) c5Children

/-- Aggregated leaf 0: mass 1 at `(0,0,0)`. -/
def c5Leaf0A : OTree :=
  .mk (27 / 40, 33 / 40, 33 / 40) (33 / 20) (0, 0, 0) 1 0 (List.replicate 8 none)

/-- Aggregated leaf 1: mass 2 at `(3,0,0)`. -/
def c5Leaf1A : OTree :=
  .mk (93 / 40, 33 / 40, 33 / 40) (33 / 20) (3, 0, 0) 2 1 (List.replicate 8 none)

/-- Aggregated children of the merge-law root. -/
def c5ChildrenAgg : List (Option OTree) :=
  [none, none, none, some c5Leaf0A, none, none, none, some c5Leaf1A]

/-- The aggregated merge-law octree: total mass 3, `com = (2,0,0)`. -/
def c5TreeAgg : OTree := .mk (3 / 2, 0, 0) (33 / 10) (2, 0, 0) 3 (-1) c5ChildrenAgg

/-- Acceleration of particle 0: pulled by mass 2 at distance 3 with
`r² = 9 + ε² = 13`. -/
def c5A0 : Vec3 := ((6 / (13 * Real.sqrt 13) : ℝ), 0, 0)

/-- Acceleration of particle 1 (Newton-symmetric partner). -/
def c5A1 : Vec3 := ((-(3 / (13 * Real.sqrt 13)) : ℝ), 0, 0)

/-- The merge-law engine after the acceleration pass. -/
def c5EngineAcc : PhysicsEngine where
  particles := ⟨c5P, c5V, [c5A0, c5A1], c5M, [0, 0]⟩
  currentBackend := .cpuSingleThread
  G := 1
  softening := 2
  theta := 1 / 2
  collisionsEnabled := true

/-- Particle 0's position after the Verlet update with time step `dt`. -/
def c5Pos0 (dt : ℝ) : Vec3 :=
  (0 + 1 * dt + 1 / 2 * (6 / (13 * Real.sqrt 13)) * (dt * dt), 0, 0)

/-- Particle 1's position after the Verlet update with time step `dt`. -/
def c5Pos1 (dt : ℝ) : Vec3 :=
  (3 + -1 * dt + 1 / 2 * -(3 / (13 * Real.sqrt 13)) * (dt * dt), 0, 0)

/-- The merge-law engine after Verlet integration by `dt`. -/
def c5Verlet (dt : ℝ) : PhysicsEngine where
  particles := ⟨[c5Pos0 dt, c5Pos1 dt],
    [((1 + 6 / (13 * Real.sqrt 13) * dt : ℝ), 0, 0),
     ((-1 + -(3 / (13 * Real.sqrt 13)) * dt : ℝ), 0, 0)],
    [c5A0, c5A1], c5M, [0, 0]⟩
  currentBackend := .cpuSingleThread
  G := 1
  softening := 2
  theta := 1 / 2
  collisionsEnabled := true

/-- The merge-law engine after the full step: one surviving particle of
mass 3 with velocity `(-1/3, 0, 0)` at particle 0's integrated position. -/
def c5Result (dt : ℝ) : PhysicsEngine where
  particles := ⟨[c5Pos0 dt], [((-(1 / 3) : ℝ), 0, 0)], [c5A0], [3], [0]⟩
  currentBackend := .cpuSingleThread
  G := 1
  softening := 2
  theta := 1 / 2
  collisionsEnabled := true

/-- A concrete one-particle engine state used by the C2 witness. -/
def c2Engine : PhysicsEngine where
  particles := ⟨[((1 : ℝ), 2, 3)], [((4 : ℝ), 5, 6)], [((2 : ℝ), 0, -2)], [7], [0]⟩
  currentBackend := .cpuSingleThread
  G := 1
  softening := 1 / 100
  theta := 1 / 2
  collisionsEnabled := false

/-- A concrete two-particle engine state used by the C7 and C8 witnesses. -/
def c7Engine : PhysicsEngine where
  particles := ⟨[((1 : ℝ), 2, 3), ((4 : ℝ), 5, 6)],
    [((0 : ℝ), 0, 1), ((0 : ℝ), 1, 0)],
    [((0 : ℝ), 0, 0), ((0 : ℝ), 0, 0)], [2, 5], [0, 1]⟩
  currentBackend := .cpuSingleThread
  G := 1
  softening := 1 / 100
  theta := 1 / 2
  collisionsEnabled := false

/-- The engine state used by the C3 counterexample: a freshly initialised
two-particle engine. -/
def c3Engine : PhysicsEngine := PhysicsEngine.new.initEngine 2 .cpuSingleThread

/-- A one-particle engine state on which a full `step` is evaluated
concretely (C3 witness). -/
def c3StepEngine : PhysicsEngine where
  particles := ⟨[((0 : ℝ), 0, 0)], [((0 : ℝ), 0, 0)], [((0 : ℝ), 0, 0)], [1], [0]⟩
  currentBackend := .cpuSingleThread
  G := 1
  softening := 1 / 100
  theta := 1 / 2
  collisionsEnabled := false

/-! ### Basic simp lemmas for the accessors -/

@[simp] theorem OTree.center_mk (c : Vec3) (s : ℝ) (cm : Vec3) (m : ℝ)
    (pi : ℤ) (ch : List (Option OTree)) : (OTree.mk c s cm m pi ch).center = c := rfl

@[simp] theorem OTree.size_mk (c : Vec3) (s : ℝ) (cm : Vec3) (m : ℝ)
    (pi : ℤ) (ch : List (Option OTree)) : (OTree.mk c s cm m pi ch).size = s := rfl

@[simp] theorem OTree.com_mk (c : Vec3) (s : ℝ) (cm : Vec3) (m : ℝ)
    (pi : ℤ) (ch : List (Option OTree)) : (OTree.mk c s cm m pi ch).com = cm := rfl

@[simp] theorem OTree.totalMass_mk (c : Vec3) (s : ℝ) (cm : Vec3) (m : ℝ)
    (pi : ℤ) (ch : List (Option OTree)) : (OTree.mk c s cm m pi ch).totalMass = m := rfl

@[simp] theorem OTree.particleIndex_mk (c : Vec3) (s : ℝ) (cm : Vec3) (m : ℝ)
    (pi : ℤ) (ch : List (Option OTree)) : (OTree.mk c s cm m pi ch).particleIndex = pi := rfl

@[simp] theorem OTree.children_mk (c : Vec3) (s : ℝ) (cm : Vec3) (m : ℝ)
    (pi : ℤ) (ch : List (Option OTree)) : (OTree.mk c s cm m pi ch).children = ch := rfl

@[simp] theorem OTree.withIndex_mk (c : Vec3) (s : ℝ) (cm : Vec3) (m : ℝ)
    (pi pi' : ℤ) (ch : List (Option OTree)) :
    (OTree.mk c s cm m pi ch).withIndex pi' = OTree.mk c s cm m pi' ch := rfl

@[simp] theorem OTree.setChild_mk (c : Vec3) (s : ℝ) (cm : Vec3) (m : ℝ)
    (pi : ℤ) (ch : List (Option OTree)) (o : ℕ) (t : OTree) :
    (OTree.mk c s cm m pi ch).setChild o t = OTree.mk c s cm m pi (ch.set o (some t)) := rfl

theorem OTree.isEmpty_mk (c : Vec3) (s : ℝ) (cm : Vec3) (m : ℝ)
    (pi : ℤ) (ch : List (Option OTree)) :
    (OTree.mk c s cm m pi ch).isEmpty ↔ pi < 0 ∧ m = 0 := Iff.rfl

theorem OTree.isLeaf_mk (c : Vec3) (s : ℝ) (cm : Vec3) (m : ℝ)
    (pi : ℤ) (ch : List (Option OTree)) :
    (OTree.mk c s cm m pi ch).isLeaf ↔ 0 ≤ pi := Iff.rfl

/-- Mapping each index of `range l.length` through `l.getD` reproduces `l`. -/
theorem map_getD_range {α : Type} (l : List α) (d : α) :
    (List.range l.length).map (fun i => l.getD i d) = l := by
  apply List.ext_getElem
  · simp
  · intro i h1 h2
    simp [List.getD_eq_getElem?_getD, List.getElem?_eq_getElem h2]

/-! ### Claim C2: the Verlet integrator -/

/-- **C2.**  For every particle index `i` and every `dt`, one integration
pass (`integrate_verlet`) updates, per axis, `position[i]` to
`position[i] + velocity[i]·dt + 0.5·acceleration[i]·dt²` (using the
pre-update velocity) and then `velocity[i]` to
`velocity[i] + acceleration[i]·dt`; the masses, types and accelerations are
unchanged by the integrator. -/
theorem C2_integrate_verlet_updates (e : PhysicsEngine) (dt : ℝ) (i : ℕ)
    (hi : i < e.particles.size) (hv : i < e.particles.velocities.length) :
    (e.integrate_verlet dt).particles.positions.getD i (0, 0, 0) =
      (let p := e.particles.positions.getD i (0, 0, 0)
       let v := e.particles.velocities.getD i (0, 0, 0)
       let a := e.particles.accelerations.getD i (0, 0, 0)
       (p.1 + v.1 * dt + 0.5 * a.1 * dt ^ 2,
        p.2.1 + v.2.1 * dt + 0.5 * a.2.1 * dt ^ 2,
        p.2.2 + v.2.2 * dt + 0.5 * a.2.2 * dt ^ 2)) ∧
    (e.integrate_verlet dt).particles.velocities.getD i (0, 0, 0) =
      (let v := e.particles.velocities.getD i (0, 0, 0)
       let a := e.particles.accelerations.getD i (0, 0, 0)
       (v.1 + a.1 * dt, v.2.1 + a.2.1 * dt, v.2.2 + a.2.2 * dt)) ∧
    (e.integrate_verlet dt).particles.masses = e.particles.masses ∧
    (e.integrate_verlet dt).particles.types = e.particles.types ∧
    (e.integrate_verlet dt).particles.accelerations = e.particles.accelerations := by
  have hip : i < e.particles.positions.length := hi
  refine ⟨?_, ?_, rfl, rfl, rfl⟩
  · have hlen : i < ((e.integrate_verlet dt).particles.positions).length := by
      simp [PhysicsEngine.integrate_verlet, List.length_mapIdx]
      exact hip
    rw [List.getD_eq_getElem _ _ hlen]
    simp only [PhysicsEngine.integrate_verlet, List.getElem_mapIdx]
    rw [List.getD_eq_getElem _ _ hip]
    ring_nf
  · have hlen : i < ((e.integrate_verlet dt).particles.velocities).length := by
      simp [PhysicsEngine.integrate_verlet, List.length_mapIdx]
      exact hv
    rw [List.getD_eq_getElem _ _ hlen]
    simp only [PhysicsEngine.integrate_verlet, List.getElem_mapIdx]
    rw [if_pos hi, List.getD_eq_getElem _ _ hv]

/-- Witness for C2 at a concrete one-particle state. -/
theorem C2_integrate_verlet_updates_witness :
    (c2Engine.integrate_verlet 2).particles.positions.getD 0 (0, 0, 0) = (13, 12, 11) ∧
    (c2Engine.integrate_verlet 2).particles.velocities.getD 0 (0, 0, 0) = (8, 5, 2) ∧
    (c2Engine.integrate_verlet 2).particles.masses = [7] := by
  have h := C2_integrate_verlet_updates c2Engine 2 0
    (by simp [c2Engine, ParticleSystem.size]) (by simp [c2Engine])
  refine ⟨?_, ?_, ?_⟩
  · rw [h.1]; norm_num [c2Engine]
  · rw [h.2.1]; norm_num [c2Engine]
  · rw [h.2.2.1]; simp [c2Engine]

/-! ### Claim C7: remove_particle -/

/-- Reading below the erased index is unchanged. -/
theorem getD_eraseIdx_lt {α : Type} (l : List α) (d : α) (k i : ℕ)
    (hk : k < l.length) (hik : i < k) :
    (l.eraseIdx k).getD i d = l.getD i d := by
  have hi : i < l.length := lt_trans hik hk
  have hi' : i < (l.eraseIdx k).length := by
    rw [List.length_eraseIdx_of_lt hk]; omega
  rw [List.getD_eq_getElem _ _ hi', List.getD_eq_getElem _ _ hi]
  exact List.getElem_eraseIdx_of_lt l k i hi' hik

/-- Reading at or above the erased index shifts down by one. -/
theorem getD_eraseIdx_ge {α : Type} (l : List α) (d : α) (k i : ℕ)
    (hk : k ≤ i) (hi : i + 1 < l.length) :
    (l.eraseIdx k).getD i d = l.getD (i + 1) d := by
  have hlen : i < (l.eraseIdx k).length := by
    rw [List.length_eraseIdx_of_lt (by omega)]; omega
  rw [List.getD_eq_getElem _ _ hlen, List.getD_eq_getElem _ _ hi]
  exact List.getElem_eraseIdx_of_ge l k i hlen hk

/-- **C7.**  For every engine state with `N` particles (the five arrays of
equal length): `remove_particle k` with `k ≥ N` leaves the state unchanged
(silent no-op); with `k < N` it leaves `get_particle_count = N - 1`,
preserves all five arrays at every index `i < k`, and shifts the entries at
indices above `k` down by one. -/
theorem C7_remove_particle_spec (e : PhysicsEngine)
    (h : e.particles.eqLen) (k : ℕ) :
    (e.particles.size ≤ k → e.remove_particle k = e) ∧
    (k < e.particles.size →
      (e.remove_particle k).get_particle_count = e.particles.size - 1 ∧
      (∀ i, i < k →
        (e.remove_particle k).particles.positions.getD i (0, 0, 0) =
          e.particles.positions.getD i (0, 0, 0) ∧
        (e.remove_particle k).particles.velocities.getD i (0, 0, 0) =
          e.particles.velocities.getD i (0, 0, 0) ∧
        (e.remove_particle k).particles.accelerations.getD i (0, 0, 0) =
          e.particles.accelerations.getD i (0, 0, 0) ∧
        (e.remove_particle k).particles.masses.getD i 0 =
          e.particles.masses.getD i 0 ∧
        (e.remove_particle k).particles.types.getD i 0 =
          e.particles.types.getD i 0) ∧
      (∀ i, k ≤ i → i + 1 < e.particles.size →
        (e.remove_particle k).particles.positions.getD i (0, 0, 0) =
          e.particles.positions.getD (i + 1) (0, 0, 0) ∧
        (e.remove_particle k).particles.velocities.getD i (0, 0, 0) =
          e.particles.velocities.getD (i + 1) (0, 0, 0) ∧
        (e.remove_particle k).particles.accelerations.getD i (0, 0, 0) =
          e.particles.accelerations.getD (i + 1) (0, 0, 0) ∧
        (e.remove_particle k).particles.masses.getD i 0 =
          e.particles.masses.getD (i + 1) 0 ∧
        (e.remove_particle k).particles.types.getD i 0 =
          e.particles.types.getD (i + 1) 0)) := by
  obtain ⟨hv, ha, hm, ht⟩ := h
  constructor
  · intro hk
    simp [PhysicsEngine.remove_particle, hk]
  · intro hk
    have hrw : e.remove_particle k = { e with particles :=
        { positions := e.particles.positions.eraseIdx k
          velocities := e.particles.velocities.eraseIdx k
          accelerations := e.particles.accelerations.eraseIdx k
          masses := e.particles.masses.eraseIdx k
          types := e.particles.types.eraseIdx k } } := by
      simp [PhysicsEngine.remove_particle, Nat.not_le.mpr hk]
    refine ⟨?_, ?_, ?_⟩
    · rw [hrw]
      simp only [PhysicsEngine.get_particle_count, ParticleSystem.size]
      exact List.length_eraseIdx_of_lt hk
    · intro i hik
      rw [hrw]
      exact ⟨getD_eraseIdx_lt _ _ _ _ hk hik,
        getD_eraseIdx_lt _ _ _ _ (hv ▸ hk) hik,
        getD_eraseIdx_lt _ _ _ _ (ha ▸ hk) hik,
        getD_eraseIdx_lt _ _ _ _ (hm ▸ hk) hik,
        getD_eraseIdx_lt _ _ _ _ (ht ▸ hk) hik⟩
    · intro i hki hi
      rw [hrw]
      exact ⟨getD_eraseIdx_ge _ _ _ _ hki hi,
        getD_eraseIdx_ge _ _ _ _ hki (hv ▸ hi),
        getD_eraseIdx_ge _ _ _ _ hki (ha ▸ hi),
        getD_eraseIdx_ge _ _ _ _ hki (hm ▸ hi),
        getD_eraseIdx_ge _ _ _ _ hki (ht ▸ hi)⟩

/-- Witness for C7: removing index 0 of a two-particle state shifts row 1
into row 0, and removing index 5 is a no-op. -/
theorem C7_remove_particle_spec_witness :
    (c7Engine.remove_particle 0).get_particle_count = 1 ∧
    (c7Engine.remove_particle 0).particles.masses.getD 0 0 = 5 ∧
    c7Engine.remove_particle 5 = c7Engine := by
  have h := C7_remove_particle_spec c7Engine
    (by refine ⟨?_, ?_, ?_, ?_⟩ <;> simp [c7Engine]) 0
  have h5 := C7_remove_particle_spec c7Engine
    (by refine ⟨?_, ?_, ?_, ?_⟩ <;> simp [c7Engine]) 5
  have hlt : (0 : ℕ) < c7Engine.particles.size := by
    simp [c7Engine, ParticleSystem.size]
  refine ⟨?_, ?_, ?_⟩
  · rw [(h.2 hlt).1]; simp [c7Engine, ParticleSystem.size]
  · have := ((h.2 hlt).2.2 0 (le_refl 0) (by simp [c7Engine, ParticleSystem.size])).2.2.2.1
    rw [this]
    simp [c7Engine]
  · exact h5.1 (by simp [c7Engine, ParticleSystem.size])

/-! ### Claim C8: the set/get round trip -/

/-- **C8.**  For every `X` in {positions, velocities, masses, types} and
every buffer of the documented shape (`(N,3)` or `(N,)` with `N` the
particle count; for positions the buffer itself fixes the count), calling
`set_X` with the buffer and then `get_X` returns exactly the buffer that was
set: `set_X` followed by `get_X` is the identity. -/
theorem C8_set_get_roundtrip (e : PhysicsEngine) (bufp bufv : List Vec3)
    (bufm : List ℝ) (buft : List ℤ)
    (hv : bufv.length = e.particles.size)
    (hm : bufm.length = e.particles.size)
    (ht : buft.length = e.particles.size) :
    (e.set_positions bufp).get_positions = bufp ∧
    (e.set_velocities bufv).get_velocities = bufv ∧
    (e.set_masses bufm).get_masses = bufm ∧
    (e.set_types buft).get_types = buft := by
  refine ⟨?_, ?_, ?_, ?_⟩
  · show (List.range bufp.length).map _ = bufp
    exact map_getD_range bufp (0, 0, 0)
  · show (List.range e.particles.positions.length).map _ = bufv
    have : e.particles.positions.length = bufv.length := hv.symm
    rw [this]
    exact map_getD_range bufv (0, 0, 0)
  · show (List.range e.particles.positions.length).map _ = bufm
    have : e.particles.positions.length = bufm.length := hm.symm
    rw [this]
    exact map_getD_range bufm 0
  · show (List.range e.particles.positions.length).map _ = buft
    have : e.particles.positions.length = buft.length := ht.symm
    rw [this]
    exact map_getD_range buft 0

/-- Witness for C8 on a concrete two-particle state. -/
theorem C8_set_get_roundtrip_witness :
    (c7Engine.set_positions [((9 : ℝ), 8, 7)]).get_positions = [((9 : ℝ), 8, 7)] ∧
    (c7Engine.set_masses [(3 : ℝ), 4]).get_masses = [(3 : ℝ), 4] := by
  have h := C8_set_get_roundtrip c7Engine [((9 : ℝ), 8, 7)]
    [((0 : ℝ), 0, 0), ((0 : ℝ), 0, 0)] [(3 : ℝ), 4] [0, 1]
    (by simp [c7Engine, ParticleSystem.size])
    (by simp [c7Engine, ParticleSystem.size])
    (by simp [c7Engine, ParticleSystem.size])
  exact ⟨h.1, h.2.2.1⟩

/-! ### Claim C1: the Barnes–Hut force evaluator -/

/-- **C1.**  For every particle index `i` and every octree node: the
evaluator contributes nothing for an empty node; skips a leaf whose stored
particle index equals `i` (no self-interaction); for a leaf, or for a node
with `size / r < θ` where `r = sqrt(d² + ε²)` and `d = |com − position[i]|`,
adds `G · total_mass · (com − position[i]) / r³` to the accumulated
acceleration; and otherwise recurses into each non-null child in
octant-index order. -/
theorem C1_force_evaluator_cases (P : List Vec3) (G theta softening : ℝ)
    (i : ℕ) (t : OTree) (acc : Vec3) :
    (let p := P.getD i (0, 0, 0)
     let r := Real.sqrt ((t.com.1 - p.1) ^ 2 + (t.com.2.1 - p.2.1) ^ 2 +
       (t.com.2.2 - p.2.2) ^ 2 + softening ^ 2)
     (t.isEmpty → computeAccelerationFromTree P G theta softening i t acc = acc) ∧
     (t.isLeaf ∧ t.particleIndex = (i : ℤ) →
       computeAccelerationFromTree P G theta softening i t acc = acc) ∧
     (¬t.isEmpty → (t.isLeaf ∨ t.size / r < theta) →
       ¬(t.isLeaf ∧ t.particleIndex = (i : ℤ)) →
       computeAccelerationFromTree P G theta softening i t acc =
         (acc.1 + G * t.totalMass * (t.com.1 - p.1) / r ^ 3,
          acc.2.1 + G * t.totalMass * (t.com.2.1 - p.2.1) / r ^ 3,
          acc.2.2 + G * t.totalMass * (t.com.2.2 - p.2.2) / r ^ 3)) ∧
     (¬t.isEmpty → ¬t.isLeaf → ¬(t.size / r < theta) →
       computeAccelerationFromTree P G theta softening i t acc =
         accelChildren P G theta softening i t.children acc) ∧
     (accelChildren P G theta softening i [] acc = acc) ∧
     (∀ rest : List (Option OTree),
       accelChildren P G theta softening i (none :: rest) acc =
         accelChildren P G theta softening i rest acc) ∧
     (∀ (u : OTree) (rest : List (Option OTree)),
       accelChildren P G theta softening i (some u :: rest) acc =
         accelChildren P G theta softening i rest
           (computeAccelerationFromTree P G theta softening i u acc))) := by
  obtain ⟨c, s, cm, m, pi, ch⟩ := t
  simp only [OTree.com_mk, OTree.size_mk, OTree.particleIndex_mk,
    OTree.children_mk]
  set p := P.getD i (0, 0, 0) with hp
  have hargs : (cm.1 - p.1) * (cm.1 - p.1) + (cm.2.1 - p.2.1) * (cm.2.1 - p.2.1) +
      (cm.2.2 - p.2.2) * (cm.2.2 - p.2.2) + softening * softening =
      (cm.1 - p.1) ^ 2 + (cm.2.1 - p.2.1) ^ 2 + (cm.2.2 - p.2.2) ^ 2 +
        softening ^ 2 := by ring
  have hQ : (0 : ℝ) ≤ (cm.1 - p.1) ^ 2 + (cm.2.1 - p.2.1) ^ 2 +
      (cm.2.2 - p.2.2) ^ 2 + softening ^ 2 := by positivity
  refine ⟨?_, ?_, ?_, ?_, rfl, fun rest => rfl, fun u rest => rfl⟩
  · intro h
    rw [computeAccelerationFromTree]
    simp only [OTree.center_mk, OTree.size_mk, OTree.com_mk, OTree.totalMass_mk,
      OTree.particleIndex_mk, OTree.children_mk]
    rw [if_pos h]
  · intro h
    have hne : ¬(OTree.mk c s cm m pi ch).isEmpty := by
      rintro ⟨h1, -⟩
      rw [OTree.isLeaf_mk] at h
      rw [OTree.particleIndex_mk] at h1
      omega
    rw [computeAccelerationFromTree]
    simp only [OTree.center_mk, OTree.size_mk, OTree.com_mk, OTree.totalMass_mk,
      OTree.particleIndex_mk, OTree.children_mk]
    rw [if_neg hne, if_pos (Or.inl h.1), if_pos h]
  · intro hne hcrit hself
    rw [computeAccelerationFromTree]
    simp only [OTree.center_mk, OTree.size_mk, OTree.com_mk, OTree.totalMass_mk,
      OTree.particleIndex_mk, OTree.children_mk]
    rw [if_neg hne, hargs, if_pos hcrit, if_neg hself]
    have h3 : Real.sqrt ((cm.1 - p.1) ^ 2 + (cm.2.1 - p.2.1) ^ 2 +
        (cm.2.2 - p.2.2) ^ 2 + softening ^ 2) ^ 3 =
        ((cm.1 - p.1) ^ 2 + (cm.2.1 - p.2.1) ^ 2 + (cm.2.2 - p.2.2) ^ 2 +
          softening ^ 2) *
        Real.sqrt ((cm.1 - p.1) ^ 2 + (cm.2.1 - p.2.1) ^ 2 +
          (cm.2.2 - p.2.2) ^ 2 + softening ^ 2) := by
      rw [pow_succ, Real.sq_sqrt hQ]
    rw [h3]
    refine Prod.ext ?_ (Prod.ext ?_ ?_) <;> simp only [] <;> ring
  · intro hne hleaf hcrit
    have hor : ¬((OTree.mk c s cm m pi ch).isLeaf ∨
        s / Real.sqrt ((cm.1 - p.1) ^ 2 + (cm.2.1 - p.2.1) ^ 2 +
          (cm.2.2 - p.2.2) ^ 2 + softening ^ 2) < theta) := by
      rintro (h | h)
      · exact hleaf h
      · exact hcrit h
    rw [computeAccelerationFromTree]
    simp only [OTree.center_mk, OTree.size_mk, OTree.com_mk, OTree.totalMass_mk,
      OTree.particleIndex_mk, OTree.children_mk]
    rw [if_neg hne, hargs, if_neg hor]

/-- Witness for C1: an empty node, a self-leaf, a far node (the direct
accumulation branch) and a near internal node (the recursion branch), all
concrete. -/
theorem C1_force_evaluator_cases_witness :
    (computeAccelerationFromTree [((0 : ℝ), 0, 0)] 1 (1 / 2) 1 0
      (OTree.mk (0, 0, 0) 1 (0, 0, 0) 0 (-1) []) (1, 2, 3) = (1, 2, 3)) ∧
    (computeAccelerationFromTree [((0 : ℝ), 0, 0)] 1 (1 / 2) 1 0
      (OTree.mk (0, 0, 0) 1 (5, 6, 7) 4 0 []) (1, 2, 3) = (1, 2, 3)) ∧
    (computeAccelerationFromTree [((0 : ℝ), 0, 0)] 1 (1 / 2) 1 0
      (OTree.mk (0, 0, 0) (2 / 5) (0, 0, 0) 5 (-1) []) (1, 2, 3) = (1, 2, 3)) ∧
    (computeAccelerationFromTree [((0 : ℝ), 0, 0)] 1 (1 / 2) 1 0
      (OTree.mk (0, 0, 0) 2 (0, 0, 0) 5 (-1) []) (1, 2, 3) = (1, 2, 3)) := by
  refine ⟨?_, ?_, ?_, ?_⟩
  · exact (C1_force_evaluator_cases [((0 : ℝ), 0, 0)] 1 (1 / 2) 1 0
      (OTree.mk (0, 0, 0) 1 (0, 0, 0) 0 (-1) []) (1, 2, 3)).1
      (by rw [OTree.isEmpty_mk]; norm_num)
  · exact (C1_force_evaluator_cases [((0 : ℝ), 0, 0)] 1 (1 / 2) 1 0
      (OTree.mk (0, 0, 0) 1 (5, 6, 7) 4 0 []) (1, 2, 3)).2.1
      (by rw [OTree.isLeaf_mk, OTree.particleIndex_mk]; norm_num)
  · have h := (C1_force_evaluator_cases [((0 : ℝ), 0, 0)] 1 (1 / 2) 1 0
      (OTree.mk (0, 0, 0) (2 / 5) (0, 0, 0) 5 (-1) []) (1, 2, 3)).2.2.1
      (by rw [OTree.isEmpty_mk]; norm_num)
      (by right
          simp only [OTree.size_mk, OTree.com_mk, List.getD_cons_zero]
          norm_num [Real.sqrt_one])
      (by rw [OTree.isLeaf_mk]; norm_num)
    rw [h]
    simp only [OTree.totalMass_mk, OTree.com_mk, List.getD_cons_zero]
    norm_num [Real.sqrt_one]
  · have h := (C1_force_evaluator_cases [((0 : ℝ), 0, 0)] 1 (1 / 2) 1 0
      (OTree.mk (0, 0, 0) 2 (0, 0, 0) 5 (-1) []) (1, 2, 3)).2.2.2.1
      (by rw [OTree.isEmpty_mk]; norm_num)
      (by rw [OTree.isLeaf_mk]; norm_num)
      (by simp only [OTree.size_mk, OTree.com_mk, List.getD_cons_zero]
          norm_num [Real.sqrt_one])
    rw [h, OTree.children_mk]
    exact (C1_force_evaluator_cases [((0 : ℝ), 0, 0)] 1 (1 / 2) 1 0
      (OTree.mk (0, 0, 0) 2 (0, 0, 0) 5 (-1) []) (1, 2, 3)).2.2.2.2.1

/-! ### Length bookkeeping for claim C3 -/

/-- A fold preserves any property preserved by its step function. -/
theorem foldl_preserve {α β : Type} (f : β → α → β) (Q : β → Prop)
    (h : ∀ b a, Q b → Q (f b a)) (l : List α) :
    ∀ b : β, Q b → Q (l.foldl f b) := by
  induction l with
  | nil => intro b hb; exact hb
  | cons a l ih => intro b hb; exact ih (f b a) (h b a hb)

/-- `std::vector::resize` always produces the requested length. -/
theorem vresize_length {α : Type} (z : α) (l : List α) (n : ℕ) :
    (ParticleSystem.vresize z l n).length = n := by
  simp [ParticleSystem.vresize]
  omega

theorem eqLen_initEngine (e : PhysicsEngine) (n : ℕ) (b : ComputeBackend) :
    (e.initEngine n b).particles.eqLen := by
  simp [PhysicsEngine.initEngine, ParticleSystem.resize, ParticleSystem.eqLen,
    vresize_length]

theorem eqLen_add_particle (e : PhysicsEngine) (pos vel : Vec3) (mass : ℝ)
    (ty : ℤ) (h : e.particles.eqLen) :
    (e.add_particle pos vel mass ty).particles.eqLen := by
  obtain ⟨hv, ha, hm, ht⟩ := h
  simp [PhysicsEngine.add_particle, ParticleSystem.eqLen, hv, ha, hm, ht]

theorem eqLen_remove_particle (e : PhysicsEngine) (k : ℕ)
    (h : e.particles.eqLen) : (e.remove_particle k).particles.eqLen := by
  obtain ⟨hv, ha, hm, ht⟩ := h
  unfold PhysicsEngine.remove_particle
  split
  · exact ⟨hv, ha, hm, ht⟩
  · rename_i hk
    have hk' : k < e.particles.positions.length := Nat.not_le.mp hk
    refine ⟨?_, ?_, ?_, ?_⟩ <;>
      simp only [ParticleSystem.eqLen] <;>
      rw [List.length_eraseIdx_of_lt (by omega),
        List.length_eraseIdx_of_lt hk'] <;>
      omega

theorem eqLen_reset (e : PhysicsEngine) (h : e.particles.eqLen) :
    e.reset.particles.eqLen := by
  obtain ⟨hv, ha, hm, ht⟩ := h
  simp [PhysicsEngine.reset, ParticleSystem.eqLen, ParticleSystem.size, hv, hm, ht]

theorem eqLen_compute_accelerations_barnes_hut (fuel : ℕ)
    (e e' : PhysicsEngine)
    (hs : PhysicsEngine.compute_accelerations_barnes_hut fuel e = some e')
    (h : e.particles.eqLen) : e'.particles.eqLen := by
  obtain ⟨hv, ha, hm, ht⟩ := h
  unfold PhysicsEngine.compute_accelerations_barnes_hut at hs
  split at hs
  · cases hs
    exact ⟨hv, ha, hm, ht⟩
  · split at hs
    · cases hs
    · cases hs
      exact ⟨hv, by simp [ParticleSystem.size], hm, ht⟩

theorem eqLen_integrate_verlet (e : PhysicsEngine) (dt : ℝ)
    (h : e.particles.eqLen) : (e.integrate_verlet dt).particles.eqLen := by
  obtain ⟨hv, ha, hm, ht⟩ := h
  refine ⟨?_, ?_, ?_, ?_⟩ <;>
    simp [PhysicsEngine.integrate_verlet, ParticleSystem.eqLen, hv, ha, hm, ht]

theorem collideStep_lengths (P : List Vec3) (cd2 : ℝ) (i : ℕ)
    (st : CollisionState) (j : ℕ) :
    (collideStep P cd2 i st j).velocities.length = st.velocities.length ∧
    (collideStep P cd2 i st j).masses.length = st.masses.length ∧
    (collideStep P cd2 i st j).removed.length = st.removed.length := by
  unfold collideStep
  split
  · exact ⟨rfl, rfl, rfl⟩
  · dsimp only
    split
    · simp
    · exact ⟨rfl, rfl, rfl⟩

theorem collideOuter_lengths (P : List Vec3) (cd2 : ℝ) (n : ℕ)
    (st : CollisionState) (i : ℕ) :
    (collideOuter P cd2 n st i).velocities.length = st.velocities.length ∧
    (collideOuter P cd2 n st i).masses.length = st.masses.length ∧
    (collideOuter P cd2 n st i).removed.length = st.removed.length := by
  unfold collideOuter
  split
  · exact ⟨rfl, rfl, rfl⟩
  · exact foldl_preserve _
      (fun s => s.velocities.length = st.velocities.length ∧
        s.masses.length = st.masses.length ∧
        s.removed.length = st.removed.length)
      (fun s j hs => by
        obtain ⟨h1, h2, h3⟩ := hs
        obtain ⟨g1, g2, g3⟩ := collideStep_lengths P cd2 i s j
        exact ⟨g1.trans h1, g2.trans h2, g3.trans h3⟩)
      _ st ⟨rfl, rfl, rfl⟩

theorem eqLen_handle_collisions (e : PhysicsEngine)
    (h : e.particles.eqLen) : e.handle_collisions.particles.eqLen := by
  obtain ⟨hv, ha, hm, ht⟩ := h
  unfold PhysicsEngine.handle_collisions
  dsimp only
  refine foldl_preserve _ (fun en : PhysicsEngine => en.particles.eqLen)
    (fun en i hen => by
      dsimp only
      split
      · exact eqLen_remove_particle en i hen
      · exact hen) _ _ ?_
  have hst := foldl_preserve
    (collideOuter e.particles.positions
      (e.softening * 2 * (e.softening * 2)) e.particles.size)
    (fun s => s.velocities.length = e.particles.velocities.length ∧
      s.masses.length = e.particles.masses.length)
    (fun s i hs => by
      obtain ⟨h1, h2⟩ := hs
      obtain ⟨g1, g2, -⟩ := collideOuter_lengths e.particles.positions
        (e.softening * 2 * (e.softening * 2)) e.particles.size s i
      exact ⟨g1.trans h1, g2.trans h2⟩)
    (List.range e.particles.size)
    ⟨e.particles.velocities, e.particles.masses,
      List.replicate e.particles.size false⟩ ⟨rfl, rfl⟩
  exact ⟨hst.1.trans hv, ha, hst.2.trans hm, ht⟩

theorem eqLen_step (fuel : ℕ) (e e' : PhysicsEngine) (dt : ℝ)
    (h : e.particles.eqLen) (hs : e.step fuel dt = some e') :
    e'.particles.eqLen := by
  have hs1 : PhysicsEngine.step_cpu_single_thread fuel e dt = some e' := by
    cases hb : e.currentBackend <;>
      simpa [PhysicsEngine.step, hb] using hs
  unfold PhysicsEngine.step_cpu_single_thread at hs1
  rcases Option.map_eq_some'.mp hs1 with ⟨e1, he1, he'⟩
  have h1 := eqLen_compute_accelerations_barnes_hut fuel e e1 he1 h
  have h2 := eqLen_integrate_verlet e1 dt h1
  dsimp only at he'
  subst he'
  split
  · exact eqLen_handle_collisions _ h2
  · exact h2

/-- One full `step` of the concrete one-particle engine, evaluated: the tree
is a single self-leaf, the acceleration is zero, and the state is unchanged. -/
theorem c3Step_eval : c3StepEngine.step 2 1 = some c3StepEngine := by
  have hmin : min floatMax (0 : ℝ) = 0 := by
    rw [min_def]
    norm_num [floatMax]
  have hmax : max (-floatMax) (0 : ℝ) = 0 := by
    rw [max_def]
    norm_num [floatMax]
  norm_num [c3StepEngine, PhysicsEngine.step, PhysicsEngine.step_cpu_single_thread,
    PhysicsEngine.compute_accelerations_barnes_hut, buildOctree, hmin, hmax,
    insertParticleIntoTree, OTree.newNode, OTree.isEmpty, OTree.isLeaf,
    OTree.withIndex, computeNodeMassDistribution, computeAccelerationFromTree,
    PhysicsEngine.integrate_verlet, ParticleSystem.size,
    show List.range 1 = [0] from rfl, List.mapIdx_cons]

/-! ### Claim C3 (corrected): the equal-length invariant -/

/-- **C3 counterexample.**  On a freshly initialised two-particle engine,
`set_positions` with a `(1,3)` buffer resizes only the position array: the
positions end up with length 1 while the masses keep length 2, so the five
arrays do not all have identical length. -/
theorem C3_counterexample :
    (c3Engine.set_positions [((1 : ℝ), 2, 3)]).particles.positions.length = 1 ∧
    (c3Engine.set_positions [((1 : ℝ), 2, 3)]).particles.masses.length = 2 ∧
    ¬(c3Engine.set_positions [((1 : ℝ), 2, 3)]).particles.eqLen := by
  refine ⟨rfl, ?_, ?_⟩
  · simp [c3Engine, PhysicsEngine.set_positions, PhysicsEngine.new,
      PhysicsEngine.initEngine, ParticleSystem.resize, ParticleSystem.vresize]
  · rintro ⟨-, -, hm, -⟩
    simp [c3Engine, PhysicsEngine.set_positions, PhysicsEngine.new,
      PhysicsEngine.initEngine, ParticleSystem.resize,
      ParticleSystem.vresize] at hm

/-- **C3 (amended).**  `initialize`, `add_particle`, `remove_particle`,
`reset` and a successful `step` all leave the five particle arrays with
identical length (given they had identical length before, where needed).  A
bulk setter, however, resizes only its own array: `set_positions` with an
`(M,3)` buffer leaves the positions with length `M` and the other four
arrays untouched, so on an engine whose arrays have equal length the
invariant survives `set_positions` exactly when `M` equals the previous
common length. -/
theorem C3_length_invariant_amended :
    (∀ (e : PhysicsEngine) (n : ℕ) (b : ComputeBackend),
      (e.initEngine n b).particles.eqLen) ∧
    (∀ (e : PhysicsEngine) (pos vel : Vec3) (mass : ℝ) (ty : ℤ),
      e.particles.eqLen → (e.add_particle pos vel mass ty).particles.eqLen) ∧
    (∀ (e : PhysicsEngine) (k : ℕ),
      e.particles.eqLen → (e.remove_particle k).particles.eqLen) ∧
    (∀ e : PhysicsEngine, e.particles.eqLen → e.reset.particles.eqLen) ∧
    (∀ (fuel : ℕ) (e e' : PhysicsEngine) (dt : ℝ),
      e.particles.eqLen → e.step fuel dt = some e' → e'.particles.eqLen) ∧
    (∀ (e : PhysicsEngine) (buf : List Vec3),
      (e.set_positions buf).particles.positions.length = buf.length ∧
      (e.set_positions buf).particles.velocities = e.particles.velocities ∧
      (e.set_positions buf).particles.accelerations = e.particles.accelerations ∧
      (e.set_positions buf).particles.masses = e.particles.masses ∧
      (e.set_positions buf).particles.types = e.particles.types) ∧
    (∀ (e : PhysicsEngine) (buf : List Vec3), e.particles.eqLen →
      ((e.set_positions buf).particles.eqLen ↔
        buf.length = e.particles.positions.length)) := by
  refine ⟨eqLen_initEngine, eqLen_add_particle, eqLen_remove_particle,
    eqLen_reset, fun fuel e e' dt h hs => eqLen_step fuel e e' dt h hs,
    fun e buf => ⟨rfl, rfl, rfl, rfl, rfl⟩, fun e buf h => ?_⟩
  obtain ⟨hv, ha, hm, ht⟩ := h
  constructor
  · rintro ⟨hv', -, -, -⟩
    simp only [PhysicsEngine.set_positions] at hv'
    omega
  · intro hb
    exact ⟨by simpa [PhysicsEngine.set_positions] using hv.trans hb.symm,
      by simpa [PhysicsEngine.set_positions] using ha.trans hb.symm,
      by simpa [PhysicsEngine.set_positions] using hm.trans hb.symm,
      by simpa [PhysicsEngine.set_positions] using ht.trans hb.symm⟩

/-- Witness for the amended C3, applying every conjunct at concrete inputs
(for `step`: the fully evaluated one-particle step of `c3Step_eval`). -/
theorem C3_length_invariant_amended_witness :
    (c7Engine.initEngine 3 .cpuOpenmp).particles.eqLen ∧
    (c7Engine.add_particle (0, 0, 0) (0, 0, 0) 1 0).particles.eqLen ∧
    (c7Engine.remove_particle 0).particles.eqLen ∧
    c7Engine.reset.particles.eqLen ∧
    c3StepEngine.particles.eqLen ∧
    ((c7Engine.set_positions [((1 : ℝ), 2, 3)]).particles.eqLen ↔
      (1 : ℕ) = 2) := by
  have hc7 : c7Engine.particles.eqLen := by
    refine ⟨?_, ?_, ?_, ?_⟩ <;> simp [c7Engine]
  have hstep : c3StepEngine.particles.eqLen := by
    refine ⟨?_, ?_, ?_, ?_⟩ <;> simp [c3StepEngine]
  refine ⟨C3_length_invariant_amended.1 c7Engine 3 .cpuOpenmp,
    C3_length_invariant_amended.2.1 c7Engine (0, 0, 0) (0, 0, 0) 1 0 hc7,
    C3_length_invariant_amended.2.2.1 c7Engine 0 hc7,
    C3_length_invariant_amended.2.2.2.1 c7Engine hc7,
    C3_length_invariant_amended.2.2.2.2.1 2 c3StepEngine c3StepEngine 1 hstep
      c3Step_eval, ?_⟩
  have h := C3_length_invariant_amended.2.2.2.2.2.2 c7Engine
    [((1 : ℝ), 2, 3)] hc7
  rw [h]
  simp [c7Engine]

/-! ### Claim C10: the collision pass conserves total mass -/

theorem getD_set_self {α : Type} (l : List α) (i : ℕ) (x d : α)
    (h : i < l.length) : (l.set i x).getD i d = x := by
  rw [List.getD_eq_getElem?_getD, List.getElem?_set_self h]
  rfl

theorem getD_set_of_ne {α : Type} (l : List α) (i k : ℕ) (x d : α)
    (h : k ≠ i) : (l.set i x).getD k d = l.getD k d := by
  rw [List.getD_eq_getElem?_getD, List.getElem?_set_ne (Ne.symm h),
    ← List.getD_eq_getElem?_getD]

/-- A single merge (add `m_j` into row `i`, mark row `j`) does not change the
total unremoved mass. -/
theorem maskedMassSum_merge (masses : List ℝ) (removed : List Bool)
    (n i j : ℕ) (hij : i ≠ j) (hi : i < n) (hj : j < n)
    (him : i < masses.length) (hjr : j < removed.length)
    (hri : removed.getD i false = false)
    (hrj : removed.getD j false = false) :
    maskedMassSum (masses.set i (masses.getD i 0 + masses.getD j 0))
      (removed.set j true) n = maskedMassSum masses removed n := by
  unfold maskedMassSum
  have key : ∀ k ∈ Finset.range n,
      (if (removed.set j true).getD k false then 0
        else (masses.set i (masses.getD i 0 + masses.getD j 0)).getD k 0) =
      (if removed.getD k false then 0 else masses.getD k 0) +
        (if k = i then masses.getD j 0 else 0) -
        (if k = j then masses.getD j 0 else 0) := by
    intro k hk
    by_cases hki : k = i
    · subst hki
      rw [getD_set_of_ne _ _ _ _ _ hij, getD_set_self _ _ _ _ him, hri]
      simp [hij, hri]
    · by_cases hkj : k = j
      · subst hkj
        rw [getD_set_self _ _ _ _ hjr, hrj]
        simp [hki]
      · rw [getD_set_of_ne _ _ _ _ _ hkj, getD_set_of_ne _ _ _ _ _ hki]
        simp [hki, hkj]
  rw [Finset.sum_congr rfl key, Finset.sum_sub_distrib, Finset.sum_add_distrib,
    Finset.sum_ite_eq' (Finset.range n) i fun _ => masses.getD j 0,
    Finset.sum_ite_eq' (Finset.range n) j fun _ => masses.getD j 0,
    if_pos (Finset.mem_range.mpr hi), if_pos (Finset.mem_range.mpr hj)]
  ring

/-- The inner partner loop of the collision scan preserves lengths, keeps
row `i` unremoved, and conserves the unremoved mass. -/
theorem collideInner_invariant (P : List Vec3) (cd2 : ℝ) (n i : ℕ)
    (l : List ℕ) (hl : ∀ j ∈ l, i < j ∧ j < n) :
    ∀ st : CollisionState, st.masses.length = n → st.removed.length = n →
      st.removed.getD i false = false →
      (l.foldl (collideStep P cd2 i) st).masses.length = n ∧
      (l.foldl (collideStep P cd2 i) st).removed.length = n ∧
      (l.foldl (collideStep P cd2 i) st).removed.getD i false = false ∧
      maskedMassSum (l.foldl (collideStep P cd2 i) st).masses
        (l.foldl (collideStep P cd2 i) st).removed n =
        maskedMassSum st.masses st.removed n := by
  induction l with
  | nil => exact fun st h1 h2 h3 => ⟨h1, h2, h3, rfl⟩
  | cons j l ih =>
    intro st h1 h2 h3
    obtain ⟨hij, hjn⟩ := hl j (List.mem_cons_self j l)
    have hl' : ∀ j' ∈ l, i < j' ∧ j' < n :=
      fun j' hj' => hl j' (List.mem_cons_of_mem j hj')
    rw [List.foldl_cons]
    have hone : (collideStep P cd2 i st j).masses.length = n ∧
        (collideStep P cd2 i st j).removed.length = n ∧
        (collideStep P cd2 i st j).removed.getD i false = false ∧
        maskedMassSum (collideStep P cd2 i st j).masses
          (collideStep P cd2 i st j).removed n =
          maskedMassSum st.masses st.removed n := by
      unfold collideStep
      split
      · exact ⟨h1, h2, h3, rfl⟩
      · rename_i hrj
        dsimp only
        split
        · refine ⟨by simpa using h1, by simpa using h2, ?_, ?_⟩
          · show (st.removed.set j true).getD i false = false
            rw [getD_set_of_ne _ _ _ _ _ (ne_of_lt hij)]
            exact h3
          · exact maskedMassSum_merge st.masses st.removed n i j
              (ne_of_lt hij) (lt_trans hij hjn) hjn
              (by omega)
              (by omega)
              h3 (by simpa using hrj)
        · exact ⟨h1, h2, h3, rfl⟩
    obtain ⟨g1, g2, g3, g4⟩ := ih hl' (collideStep P cd2 i st j) hone.1 hone.2.1
      hone.2.2.1
    exact ⟨g1, g2, g3, g4.trans hone.2.2.2⟩

/-- One outer iteration of the collision scan conserves the unremoved
mass and the lengths. -/
theorem collideOuter_invariant (P : List Vec3) (cd2 : ℝ) (n : ℕ)
    (st : CollisionState) (i : ℕ) (hi : i < n)
    (h1 : st.masses.length = n) (h2 : st.removed.length = n) :
    (collideOuter P cd2 n st i).masses.length = n ∧
    (collideOuter P cd2 n st i).removed.length = n ∧
    maskedMassSum (collideOuter P cd2 n st i).masses
      (collideOuter P cd2 n st i).removed n =
      maskedMassSum st.masses st.removed n := by
  unfold collideOuter
  split
  · exact ⟨h1, h2, rfl⟩
  · rename_i hri
    have hmem : ∀ j ∈ List.range' (i + 1) (n - (i + 1)), i < j ∧ j < n := by
      intro j hj
      rw [List.mem_range'] at hj
      omega
    obtain ⟨g1, g2, -, g4⟩ := collideInner_invariant P cd2 n i _ hmem st h1 h2
      (by simpa using hri)
    exact ⟨g1, g2, g4⟩

theorem maskFilter_cons_false {α : Type} (x : α) (l : List α)
    (r : List Bool) : maskFilter (x :: l) (false :: r) = x :: maskFilter l r := by
  simp [maskFilter]

theorem maskFilter_cons_true {α : Type} (x : α) (l : List α)
    (r : List Bool) : maskFilter (x :: l) (true :: r) = maskFilter l r := by
  simp [maskFilter]

/-- Processing an unflagged index `k` leaves the removal view unchanged. -/
theorem view_step_false {α : Type} (l : List α) (r : List Bool) (k : ℕ)
    (hk : k < l.length) (hkr : k < r.length)
    (hflag : r.getD k false = false) :
    l.take (k + 1) ++ maskFilter (l.drop (k + 1)) (r.drop (k + 1)) =
      l.take k ++ maskFilter (l.drop k) (r.drop k) := by
  have hrk : r[k] = false := by
    rw [List.getD_eq_getElem _ _ hkr] at hflag
    exact hflag
  conv_rhs => rw [List.drop_eq_getElem_cons hk, List.drop_eq_getElem_cons hkr]
  rw [hrk, maskFilter_cons_false,
    show l.take (k + 1) = l.take k ++ [l[k]] from
      (List.take_concat_get' l k hk).symm,
    List.append_assoc, List.singleton_append]

/-- Processing a flagged index `k` erases exactly row `k` from the view. -/
theorem view_step_true {α : Type} (l : List α) (r : List Bool) (k : ℕ)
    (hk : k < l.length) (hkr : k < r.length)
    (hflag : r.getD k false = true) :
    (l.take (k + 1) ++ maskFilter (l.drop (k + 1)) (r.drop (k + 1))).eraseIdx k =
      l.take k ++ maskFilter (l.drop k) (r.drop k) := by
  have hrk : r[k] = true := by
    rw [List.getD_eq_getElem _ _ hkr] at hflag
    exact hflag
  have hlen : k < (l.take (k + 1)).length := by
    rw [List.length_take]
    omega
  rw [List.eraseIdx_append_of_lt_length hlen,
    ← List.dropLast_eq_eraseIdx (by rw [List.length_take]; omega)]
  conv_rhs => rw [List.drop_eq_getElem_cons hk, List.drop_eq_getElem_cons hkr]
  rw [hrk, maskFilter_cons_true,
    show l.take (k + 1) = l.take k ++ [l[k]] from
      (List.take_concat_get' l k hk).symm,
    List.dropLast_concat]

/-- A fold preserves any property preserved by its step function on the
list's members. -/
theorem foldl_preserve_mem {α β : Type} (f : β → α → β) (Q : β → Prop) :
    ∀ l : List α, (∀ b a, a ∈ l → Q b → Q (f b a)) →
      ∀ b : β, Q b → Q (l.foldl f b) := by
  intro l
  induction l with
  | nil => intro _ b hb; exact hb
  | cons a l ih =>
    intro h b hb
    exact ih (fun b' a' ha' hb' => h b' a' (List.mem_cons_of_mem a ha') hb')
      (f b a) (h b a (List.mem_cons_self a l) hb)

/-- The views at `k+1` and `k` coincide on an unflagged index `k`. -/
theorem partView_step_false (ps : ParticleSystem) (r : List Bool) (n k : ℕ)
    (hp : ps.positions.length = n) (hv : ps.velocities.length = n)
    (ha : ps.accelerations.length = n) (hm : ps.masses.length = n)
    (ht : ps.types.length = n) (hr : r.length = n) (hk : k < n)
    (hflag : r.getD k false = false) :
    partView ps r (k + 1) = partView ps r k := by
  unfold partView
  rw [view_step_false ps.positions r k (by omega) (by omega) hflag,
    view_step_false ps.velocities r k (by omega) (by omega) hflag,
    view_step_false ps.accelerations r k (by omega) (by omega) hflag,
    view_step_false ps.masses r k (by omega) (by omega) hflag,
    view_step_false ps.types r k (by omega) (by omega) hflag]

/-- The descending removal loop of `handle_collisions` turns the full store
into the mask-filtered store. -/
theorem removal_fold_view (e1 : PhysicsEngine) (r : List Bool) (n : ℕ)
    (hp : e1.particles.positions.length = n)
    (hv : e1.particles.velocities.length = n)
    (ha : e1.particles.accelerations.length = n)
    (hm : e1.particles.masses.length = n)
    (ht : e1.particles.types.length = n)
    (hr : r.length = n) :
    ∀ k, k ≤ n →
      (List.range k).reverse.foldl
        (fun acc i => if r.getD i false then acc.remove_particle i else acc)
        { e1 with particles := partView e1.particles r k } =
      { e1 with particles := partView e1.particles r 0 } := by
  intro k
  induction k with
  | zero => intro _; rfl
  | succ k ih =>
    intro hk1
    have hk : k < n := hk1
    rw [show (List.range (k + 1)).reverse = k :: (List.range k).reverse by
      rw [List.range_succ, List.reverse_append]; rfl]
    rw [List.foldl_cons]
    have hstep : (if r.getD k false then
        PhysicsEngine.remove_particle
          { e1 with particles := partView e1.particles r (k + 1) } k
        else { e1 with particles := partView e1.particles r (k + 1) }) =
        { e1 with particles := partView e1.particles r k } := by
      cases hflag : r.getD k false with
      | false =>
        rw [if_neg Bool.false_ne_true]
        rw [partView_step_false e1.particles r n k hp hv ha hm ht hr hk hflag]
      | true =>
        rw [if_pos rfl]
        unfold PhysicsEngine.remove_particle
        rw [if_neg (by
          simp only [partView, ParticleSystem.size, List.length_append,
            List.length_take]
          omega)]
        simp only [partView]
        rw [view_step_true e1.particles.positions r k (by omega) (by omega) hflag,
          view_step_true e1.particles.velocities r k (by omega) (by omega) hflag,
          view_step_true e1.particles.accelerations r k (by omega) (by omega) hflag,
          view_step_true e1.particles.masses r k (by omega) (by omega) hflag,
          view_step_true e1.particles.types r k (by omega) (by omega) hflag]
    rw [hstep]
    exact ih (Nat.le_of_succ_le hk1)

/-- A single array of the view at `k = n` is returned whole. -/
theorem view_comp_full {α : Type} (l : List α) (r : List Bool) (n : ℕ)
    (h : l.length = n) :
    l.take n ++ maskFilter (l.drop n) (r.drop n) = l := by
  subst h
  rw [List.take_length, List.drop_length]
  simp [maskFilter]

/-- The view at `k = n` (nothing processed yet) is the store itself. -/
theorem partView_full (ps : ParticleSystem) (r : List Bool) (n : ℕ)
    (hp : ps.positions.length = n) (hv : ps.velocities.length = n)
    (ha : ps.accelerations.length = n) (hm : ps.masses.length = n)
    (ht : ps.types.length = n) :
    partView ps r n = ps := by
  obtain ⟨pos, vel, acc, ms, ty⟩ := ps
  simp only at hp hv ha hm ht
  unfold partView
  simp only [ParticleSystem.mk.injEq]
  exact ⟨view_comp_full pos r n hp, view_comp_full vel r n hv,
    view_comp_full acc r n ha, view_comp_full ms r n hm,
    view_comp_full ty r n ht⟩

/-- The mask-filtered mass list sums to the unremoved mass. -/
theorem maskFilter_sum (l : List ℝ) :
    ∀ (r : List Bool) (n : ℕ), l.length = n → r.length = n →
      (maskFilter l r).sum = maskedMassSum l r n := by
  induction l with
  | nil =>
    intro r n h1 h2
    subst h1
    simp [maskFilter, maskedMassSum]
  | cons x l ih =>
    intro r n h1 h2
    cases r with
    | nil => simp at h1 h2; omega
    | cons b rr =>
      obtain ⟨m, rfl⟩ : ∃ m, n = m + 1 := ⟨l.length, by simpa using h1.symm⟩
      have h1' : l.length = m := by simpa using h1
      have h2' : rr.length = m := by simpa using h2
      have hsum : maskedMassSum (x :: l) (b :: rr) (m + 1) =
          (if b then 0 else x) + maskedMassSum l rr m := by
        unfold maskedMassSum
        rw [Finset.sum_range_succ']
        simp [add_comm]
      cases b with
      | false =>
        rw [maskFilter_cons_false, hsum, List.sum_cons, ih rr m h1' h2']
        simp
      | true =>
        rw [maskFilter_cons_true, hsum, ih rr m h1' h2']
        simp

/-- With no removal flags the filter is the identity. -/
theorem maskFilter_replicate_false {α : Type} (l : List α) :
    maskFilter l (List.replicate l.length false) = l := by
  induction l with
  | nil => rfl
  | cons x l ih =>
    rw [List.length_cons, List.replicate_succ, maskFilter_cons_false, ih]

/-- **C10.**  One collision pass conserves total mass exactly: in exact
arithmetic the masses of the survivors of `handle_collisions` sum to the
masses of the particles before the pass (every merge replaces `mᵢ, mⱼ` by
`mᵢ + mⱼ` and only merged partners are deleted). -/
theorem C10_handle_collisions_mass_conservation (e : PhysicsEngine)
    (h : e.particles.eqLen) :
    e.handle_collisions.particles.masses.sum = e.particles.masses.sum := by
  obtain ⟨hv, ha, hm, ht⟩ := h
  unfold PhysicsEngine.handle_collisions
  dsimp only
  have hscan := foldl_preserve_mem
    (collideOuter e.particles.positions
      (e.softening * 2 * (e.softening * 2)) e.particles.size)
    (fun s : CollisionState => s.masses.length = e.particles.size ∧
      s.removed.length = e.particles.size ∧
      s.velocities.length = e.particles.velocities.length ∧
      maskedMassSum s.masses s.removed e.particles.size =
        maskedMassSum e.particles.masses
          (List.replicate e.particles.size false) e.particles.size)
    (List.range e.particles.size)
    (fun s i hi hs => by
      obtain ⟨h1, h2, h3, h4⟩ := hs
      obtain ⟨g1, g2, g4⟩ := collideOuter_invariant e.particles.positions
        (e.softening * 2 * (e.softening * 2)) e.particles.size s i
        (List.mem_range.mp hi) h1 h2
      obtain ⟨l1, -, -⟩ := collideOuter_lengths e.particles.positions
        (e.softening * 2 * (e.softening * 2)) e.particles.size s i
      exact ⟨g1, g2, l1.trans h3, g4.trans h4⟩)
    ⟨e.particles.velocities, e.particles.masses,
      List.replicate e.particles.size false⟩
    ⟨hm, by simp, rfl, rfl⟩
  obtain ⟨hs1, hs2, hs3, hs4⟩ := hscan
  set st := (List.range e.particles.size).foldl
    (collideOuter e.particles.positions
      (e.softening * 2 * (e.softening * 2)) e.particles.size)
    ⟨e.particles.velocities, e.particles.masses,
      List.replicate e.particles.size false⟩ with hst
  have hfold := removal_fold_view
    { e with particles := { e.particles with
        velocities := st.velocities
        masses := st.masses } } st.removed e.particles.size
    rfl (hs3.trans hv) ha hs1 ht hs2 e.particles.size le_rfl
  rw [partView_full
    { e.particles with velocities := st.velocities, masses := st.masses }
    st.removed e.particles.size rfl (hs3.trans hv) ha hs1 ht] at hfold
  rw [hfold]
  have hview : (partView
      { e.particles with velocities := st.velocities, masses := st.masses }
      st.removed 0).masses = maskFilter st.masses st.removed := by
    simp [partView]
  rw [hview, maskFilter_sum st.masses st.removed e.particles.size hs1 hs2, hs4]
  rw [← maskFilter_sum e.particles.masses
    (List.replicate e.particles.size false) e.particles.size hm (by simp)]
  rw [show List.replicate e.particles.size false =
    List.replicate e.particles.masses.length false by rw [hm]; rfl]
  rw [maskFilter_replicate_false]

/-- Witness for C10 at the concrete two-particle engine `c7Engine`. -/
theorem C10_handle_collisions_mass_conservation_witness :
    c7Engine.handle_collisions.particles.masses.sum =
      c7Engine.particles.masses.sum := by
  exact C10_handle_collisions_mass_conservation c7Engine
    (by refine ⟨?_, ?_, ?_, ?_⟩ <;> simp [c7Engine])

/-! ### Concrete evaluation of the three-particle pipeline (C9, C4) -/

/-- Inserting into a node that tests "empty" just stores the index. -/
theorem insert_into_empty (P : List Vec3) (fuel : ℕ) (t : OTree) (i : ℕ)
    (h : t.isEmpty) :
    insertParticleIntoTree P (fuel + 1) t i = some (t.withIndex i) := by
  rw [insertParticleIntoTree, if_pos h]

theorem c9_sqrt25 : Real.sqrt 25 = 5 := by
  rw [show (25 : ℝ) = 5 ^ 2 by norm_num, Real.sqrt_sq (by norm_num)]

theorem c9_insert0 :
    insertParticleIntoTree c9P 10 (OTree.newNode (3, 0, 0) (33 / 5)) 0 =
    some (OTree.mk (3, 0, 0) (33 / 5) (0, 0, 0) 0 0 (List.replicate 8 none)) := by
  rw [show (10 : ℕ) = 9 + 1 from rfl,
    insert_into_empty c9P 9 (OTree.newNode (3, 0, 0) (33 / 5)) 0
      (by norm_num [OTree.isEmpty, OTree.newNode])]
  rfl

theorem c9_insert1 :
    insertParticleIntoTree c9P 10
      (OTree.mk (3, 0, 0) (33 / 5) (0, 0, 0) 0 0 (List.replicate 8 none)) 1 =
    some (OTree.mk (3, 0, 0) (33 / 5) (0, 0, 0) 0 (-1) c9Children) := by
  rw [show (10 : ℕ) = 9 + 1 from rfl]
  rw [insertParticleIntoTree]
  rw [if_neg (by rintro ⟨h, -⟩; norm_num at h)]
  norm_num [OTree.isLeaf, OTree.withIndex, OTree.getChild, OTree.setChild,
    getOctant, getOctantCenter, c9P,
    show (9 : ℕ) = 8 + 1 from rfl, insert_into_empty, OTree.newNode,
    OTree.isEmpty, c9Children, c9Leaf0, c9Leaf1,
    show List.replicate 8 (none : Option OTree) =
      [none, none, none, none, none, none, none, none] from rfl]

theorem c9_insert2 :
    insertParticleIntoTree c9P 10
      (OTree.mk (3, 0, 0) (33 / 5) (0, 0, 0) 0 (-1) c9Children) 2 =
    some c9Tree := by
  rw [show (10 : ℕ) = 9 + 1 from rfl,
    insert_into_empty c9P 9
      (OTree.mk (3, 0, 0) (33 / 5) (0, 0, 0) 0 (-1) c9Children) 2
      (by norm_num [OTree.isEmpty])]
  rfl

theorem c9_bbox_min :
    c9P.foldl
      (fun acc p => (min acc.1 p.1, min acc.2.1 p.2.1, min acc.2.2 p.2.2))
      (floatMax, floatMax, floatMax) = ((0 : ℝ), 0, 0) := by
  have hmin : min floatMax (0 : ℝ) = 0 := by
    rw [min_def]
    norm_num [floatMax]
  simp only [c9P, List.foldl_cons, List.foldl_nil]
  norm_num [hmin]

theorem c9_bbox_max :
    c9P.foldl
      (fun acc p => (max acc.1 p.1, max acc.2.1 p.2.1, max acc.2.2 p.2.2))
      (-floatMax, -floatMax, -floatMax) = ((6 : ℝ), 0, 0) := by
  have hmax : max (-floatMax) (0 : ℝ) = 0 := by
    rw [max_def]
    norm_num [floatMax]
  simp only [c9P, List.foldl_cons, List.foldl_nil]
  norm_num [hmax]

theorem c9_build : buildOctree c9P 10 = some c9Tree := by
  rw [buildOctree]
  rw [if_neg (by norm_num [c9P])]
  rw [c9_bbox_min, c9_bbox_max]
  rw [show List.range c9P.length = [0, 1, 2] from rfl]
  simp only [List.foldl_cons, List.foldl_nil, Option.some_bind]
  norm_num [max_def]
  show (((insertParticleIntoTree c9P 10 (OTree.newNode (3, 0, 0) (33 / 5)) 0).bind
      fun a => insertParticleIntoTree c9P 10 a 1).bind
      fun a => insertParticleIntoTree c9P 10 a 2) = some c9Tree
  rw [c9_insert0]
  simp only [Option.some_bind]
  rw [c9_insert1]
  simp only [Option.some_bind]
  rw [c9_insert2]

theorem c9_massdist :
    computeNodeMassDistribution c9P c9M c9Tree = c9TreeAgg := by
  rw [c9Tree, c9TreeAgg]
  norm_num [computeNodeMassDistribution, c9P, c9M,
    show Int.toNat 2 = 2 from rfl]

theorem c9_accel0 :
    computeAccelerationFromTree c9P 1 0 4 0 c9TreeAgg (0, 0, 0) =
      ((3 / 125 : ℝ), 0, 0) := by
  rw [c9TreeAgg]
  norm_num [computeAccelerationFromTree, OTree.isEmpty, OTree.isLeaf, c9P,
    c9_sqrt25]

theorem c9_accel1 :
    computeAccelerationFromTree c9P 1 0 4 1 c9TreeAgg (0, 0, 0) =
      ((-(3 / 125) : ℝ), 0, 0) := by
  rw [c9TreeAgg]
  norm_num [computeAccelerationFromTree, OTree.isEmpty, OTree.isLeaf, c9P,
    c9_sqrt25]

theorem c9_accel2 :
    computeAccelerationFromTree c9P 1 0 4 2 c9TreeAgg (0, 0, 0) =
      ((0 : ℝ), 0, 0) := by
  rw [c9TreeAgg]
  norm_num [computeAccelerationFromTree, OTree.isEmpty, OTree.isLeaf, c9P,
    c9_sqrt25]

theorem c9_accels :
    PhysicsEngine.compute_accelerations_barnes_hut 10 c9Engine =
      some c9EngineAcc := by
  rw [PhysicsEngine.compute_accelerations_barnes_hut]
  rw [if_neg (by norm_num [c9Engine, ParticleSystem.size, c9P])]
  rw [show c9Engine.particles.positions = c9P from rfl, c9_build]
  dsimp only
  rw [show c9Engine.particles.masses = c9M from rfl, c9_massdist]
  rw [show List.range c9Engine.particles.size = [0, 1, 2] from rfl]
  simp only [List.map_cons, List.map_nil]
  rw [show c9Engine.G = 1 from rfl, show c9Engine.theta = 0 from rfl,
    show c9Engine.softening = 4 from rfl]
  rw [c9_accel0, c9_accel1, c9_accel2]
  rfl

theorem c9_verlet :
    c9EngineAcc.integrate_verlet 1 = c9After := by
  rw [PhysicsEngine.integrate_verlet]
  norm_num [c9EngineAcc, c9After, c9P, c9V, c9M, ParticleSystem.size,
    List.mapIdx_cons]

theorem c9_step : c9Engine.step 10 1 = some c9After := by
  show PhysicsEngine.step_cpu_single_thread 10 c9Engine 1 = some c9After
  rw [PhysicsEngine.step_cpu_single_thread, c9_accels]
  rw [Option.map_some']
  dsimp only
  rw [c9_verlet]
  rfl

/-! ### Claim C9: momentum conservation fails on the code -/

/-- **C9 (failing input).**  The claim says that with `θ = 0` and collisions
disabled one `step` conserves `Σ mᵢ·vᵢ` exactly in exact arithmetic.  The
code violates it: on `c9Engine` (three particles, masses `1, 2, 1`, zero
initial velocities, so zero initial momentum) one `step` with `dt = 1`
yields total momentum `(-3/125, 0, 0) ≠ 0`.  The root cause is the third
insertion: `is_empty` tests `particle_index < 0 && total_mass == 0`, and
during construction `total_mass` is still `0`, so the internal root is
"empty" and stores particle 2 while keeping its two children; aggregation
and traversal then treat the root as a leaf, so particles 0 and 1 exert no
force and receive force only from particle 2 — pair symmetry is broken. -/
theorem C9_momentum_not_conserved :
    c9Engine.theta = 0 ∧ c9Engine.collisionsEnabled = false ∧
    c9Engine.step 10 1 = some c9After ∧
    totalMomentum c9Engine.particles = ((0 : ℝ), 0, 0) ∧
    totalMomentum c9After.particles = ((-(3 / 125) : ℝ), 0, 0) ∧
    totalMomentum c9After.particles ≠ totalMomentum c9Engine.particles := by
  have h0 : totalMomentum c9Engine.particles = ((0 : ℝ), 0, 0) := by
    norm_num [totalMomentum, c9Engine, c9P, c9V, c9M, ParticleSystem.size,
      show List.range 3 = [0, 1, 2] from rfl]
  have h1 : totalMomentum c9After.particles = ((-(3 / 125) : ℝ), 0, 0) := by
    norm_num [totalMomentum, c9After, ParticleSystem.size,
      show List.range 3 = [0, 1, 2] from rfl]
  refine ⟨rfl, rfl, c9_step, h0, h1, ?_⟩
  rw [h0, h1]
  intro h
  rw [Prod.ext_iff] at h
  norm_num at h

/-! ### Claim C4: mass aggregation -/

/-- Structural induction over the octree through the child slots. -/
theorem OTree.inductionOn {motive : OTree → Prop}
    (h : ∀ c s cm m pi ch,
      (∀ u : OTree, some u ∈ ch → motive u) → motive (.mk c s cm m pi ch)) :
    ∀ t : OTree, motive t
  | .mk c s cm m pi ch =>
    h c s cm m pi ch (fun u hu => OTree.inductionOn h u)
termination_by t => sizeOf t
decreasing_by
  simp_wf
  have h1 := List.sizeOf_lt_of_mem hu
  have h2 : sizeOf (some u) = 1 + sizeOf u := by simp
  omega

/-- **C4 counterexample.**  (a) A leaf holding a zero-mass particle at
`(1,0,0)` aggregates to `total_mass = 0` with `com = (1,0,0) ≠ (0,0,0)`.
(b) On the three-particle build, the aggregated root records `total_mass
= 1` although the masses of the particles stored in its subtree sum to 4:
the root doubles as a leaf (particle 2) and its children are ignored. -/
theorem C4_counterexample :
    ((computeNodeMassDistribution [((1 : ℝ), 0, 0)] [0]
        (OTree.mk (0, 0, 0) 1 (0, 0, 0) 0 0 [])).totalMass = 0 ∧
      (computeNodeMassDistribution [((1 : ℝ), 0, 0)] [0]
        (OTree.mk (0, 0, 0) 1 (0, 0, 0) 0 0 [])).com = ((1 : ℝ), 0, 0) ∧
      (computeNodeMassDistribution [((1 : ℝ), 0, 0)] [0]
        (OTree.mk (0, 0, 0) 1 (0, 0, 0) 0 0 [])).com ≠ ((0 : ℝ), 0, 0)) ∧
    ((computeNodeMassDistribution c9P c9M c9Tree).totalMass = 1 ∧
      subtreeMassSum c9M (computeNodeMassDistribution c9P c9M c9Tree) = 4 ∧
      (computeNodeMassDistribution c9P c9M c9Tree).totalMass ≠
        subtreeMassSum c9M (computeNodeMassDistribution c9P c9M c9Tree)) := by
  have hz : computeNodeMassDistribution [((1 : ℝ), 0, 0)] [0]
      (OTree.mk (0, 0, 0) 1 (0, 0, 0) 0 0 []) =
      OTree.mk (0, 0, 0) 1 ((1 : ℝ), 0, 0) 0 0 [] := by
    norm_num [computeNodeMassDistribution, show Int.toNat 0 = 0 from rfl]
  have hsub : subtreeMassSum c9M c9TreeAgg = 4 := by
    rw [c9TreeAgg, c9Children, c9Leaf0, c9Leaf1]
    norm_num [subtreeMassSum, subtreeMassSumList, c9M,
      show Int.toNat 2 = 2 from rfl, show Int.toNat 1 = 1 from rfl,
      show Int.toNat 0 = 0 from rfl,
      show List.replicate 8 (none : Option OTree) =
        [none, none, none, none, none, none, none, none] from rfl]
  refine ⟨⟨by rw [hz]; rfl, by rw [hz]; rfl, ?_⟩,
    by rw [c9_massdist]; rfl, by rw [c9_massdist]; exact hsub, ?_⟩
  · rw [hz]
    intro h
    rw [OTree.com_mk, Prod.ext_iff] at h
    norm_num at h
  · rw [c9_massdist, hsub]
    norm_num [c9TreeAgg]

theorem getD_nonneg (M : List ℝ) (hM : ∀ x ∈ M, 0 ≤ x) (k : ℕ) :
    0 ≤ M.getD k 0 := by
  by_cases h : k < M.length
  · rw [List.getD_eq_getElem _ _ h]
    exact hM _ (M.getElem_mem h)
  · rw [List.getD_eq_default _ _ (le_of_not_lt h)]

theorem subtreeMassSumList_nonneg (M : List ℝ) :
    ∀ l : List (Option OTree),
      (∀ u : OTree, some u ∈ l → 0 ≤ subtreeMassSum M u) →
      0 ≤ subtreeMassSumList M l := by
  intro l
  induction l with
  | nil => intro _; simp [subtreeMassSumList]
  | cons oc r ihr =>
    intro hmem
    cases oc with
    | none =>
      simp only [subtreeMassSumList]
      exact ihr fun u hu => hmem u (List.mem_cons_of_mem _ hu)
    | some u =>
      simp only [subtreeMassSumList]
      exact add_nonneg (hmem u (List.mem_cons_self _ _))
        (ihr fun u' hu' => hmem u' (List.mem_cons_of_mem _ hu'))

theorem subtreeMassSum_nonneg (M : List ℝ) (hM : ∀ x ∈ M, 0 ≤ x) :
    ∀ t : OTree, 0 ≤ subtreeMassSum M t := by
  intro t
  induction t using OTree.inductionOn with
  | h c s cm m pi ch ih =>
    simp only [subtreeMassSum]
    refine add_nonneg ?_ (subtreeMassSumList_nonneg M ch ih)
    split
    · exact getD_nonneg M hM _
    · exact le_refl 0

/-- If every stored mass is nonnegative and the over-list subtree sum is
zero, each present child's subtree sum is zero. -/
theorem subtreeMassSumList_zero (M : List ℝ) (hM : ∀ x ∈ M, 0 ≤ x) :
    ∀ l : List (Option OTree),
      (∀ u : OTree, some u ∈ l → 0 ≤ subtreeMassSum M u) →
      subtreeMassSumList M l = 0 →
      ∀ u : OTree, some u ∈ l → subtreeMassSum M u = 0 := by
  intro l
  induction l with
  | nil => intro _ _ u hu; cases hu
  | cons oc r ihr =>
    intro hmem hz u hu
    cases oc with
    | none =>
      simp only [subtreeMassSumList] at hz
      rcases List.mem_cons.mp hu with h | h
      · cases h
      · exact ihr (fun u' hu' => hmem u' (List.mem_cons_of_mem _ hu')) hz u h
    | some v =>
      simp only [subtreeMassSumList] at hz
      have h1 : 0 ≤ subtreeMassSum M v := hmem v (List.mem_cons_self _ _)
      have h2 : 0 ≤ subtreeMassSumList M r :=
        subtreeMassSumList_nonneg M r
          fun u' hu' => hmem u' (List.mem_cons_of_mem _ hu')
      rcases List.mem_cons.mp hu with h | h
      · cases h
        linarith
      · exact ihr (fun u' hu' => hmem u' (List.mem_cons_of_mem _ hu'))
          (by linarith) u h

/-- The mass fold of the aggregation pass over aggregated children equals
the subtree mass sum. -/
theorem massDist_fold_total (P : List Vec3) (M : List ℝ) :
    ∀ l : List (Option OTree),
      (∀ u : OTree, some u ∈ l → ProperTree u →
        (computeNodeMassDistribution P M u).totalMass = subtreeMassSum M u) →
      ProperChildren l → ∀ acc : ℝ,
      (massDistChildren P M l).foldl
        (fun acc oc => match oc with
          | none => acc
          | some t => acc + t.totalMass) acc = acc + subtreeMassSumList M l := by
  intro l
  induction l with
  | nil =>
    intro _ _ acc
    simp [massDistChildren, subtreeMassSumList]
  | cons oc r ihr =>
    intro hmem hpc acc
    cases oc with
    | none =>
      simp only [massDistChildren, List.foldl_cons, subtreeMassSumList]
      exact ihr (fun u hu hp => hmem u (List.mem_cons_of_mem _ hu) hp)
        (by simpa [ProperChildren] using hpc) acc
    | some u =>
      simp only [massDistChildren, List.foldl_cons, subtreeMassSumList]
      simp only [ProperChildren] at hpc
      rw [ihr (fun u' hu' hp => hmem u' (List.mem_cons_of_mem _ hu') hp)
        hpc.2 _]
      rw [hmem u (List.mem_cons_self _ _) hpc.1]
      ring

/-- An all-null child list contributes no subtree mass. -/
theorem subtreeMassSumList_all_none (M : List ℝ) :
    ∀ l : List (Option OTree), (∀ c ∈ l, c = none) →
      subtreeMassSumList M l = 0 := by
  intro l
  induction l with
  | nil => intro _; simp [subtreeMassSumList]
  | cons oc r ihr =>
    intro hall
    have h1 := hall oc (List.mem_cons_self _ _)
    subst h1
    simp only [subtreeMassSumList]
    exact ihr fun c hc => hall c (List.mem_cons_of_mem _ hc)

/-- Aggregation computes exactly the subtree mass on proper trees. -/
theorem massDist_totalMass (P : List Vec3) (M : List ℝ) :
    ∀ t : OTree, ProperTree t →
      (computeNodeMassDistribution P M t).totalMass = subtreeMassSum M t := by
  intro t
  induction t using OTree.inductionOn with
  | h c s cm m pi ch ih =>
    intro hp
    simp only [ProperTree] at hp
    obtain ⟨hleaf, hch⟩ := hp
    by_cases hpi : 0 ≤ pi
    · rw [computeNodeMassDistribution]
      rw [if_pos hpi, OTree.totalMass_mk]
      simp only [subtreeMassSum]
      rw [if_pos hpi, subtreeMassSumList_all_none M ch (hleaf hpi), add_zero]
    · rw [computeNodeMassDistribution]
      rw [if_neg hpi, OTree.totalMass_mk]
      simp only [subtreeMassSum]
      rw [if_neg hpi, massDist_fold_total P M ch ih hch 0, zero_add]

/-- An all-null child list contributes no weighted sum. -/
theorem subtreeWeightedSumList_all_none (P : List Vec3) (M : List ℝ) :
    ∀ l : List (Option OTree), (∀ c ∈ l, c = none) →
      subtreeWeightedSumList P M l = (0, 0, 0) := by
  intro l
  induction l with
  | nil => intro _; simp [subtreeWeightedSumList]
  | cons oc r ihr =>
    intro hall
    have h1 := hall oc (List.mem_cons_self _ _)
    subst h1
    simp only [subtreeWeightedSumList]
    exact ihr fun c hc => hall c (List.mem_cons_of_mem _ hc)

/-- Children whose weighted sums all vanish contribute no weighted sum. -/
theorem subtreeWeightedSumList_zero (P : List Vec3) (M : List ℝ) :
    ∀ l : List (Option OTree),
      (∀ u : OTree, some u ∈ l → subtreeWeightedSum P M u = (0, 0, 0)) →
      subtreeWeightedSumList P M l = (0, 0, 0) := by
  intro l
  induction l with
  | nil => intro _; simp [subtreeWeightedSumList]
  | cons oc r ihr =>
    intro hmem
    cases oc with
    | none =>
      simp only [subtreeWeightedSumList]
      exact ihr fun u hu => hmem u (List.mem_cons_of_mem _ hu)
    | some u =>
      simp only [subtreeWeightedSumList]
      rw [hmem u (List.mem_cons_self _ _),
        ihr fun u' hu' => hmem u' (List.mem_cons_of_mem _ hu')]
      exact Prod.ext (by norm_num) (Prod.ext (by norm_num) (by norm_num))

/-- The weighted fold of the aggregation pass over aggregated children
equals the subtree weighted sum. -/
theorem massDist_fold_weighted (P : List Vec3) (M : List ℝ) :
    ∀ l : List (Option OTree),
      (∀ u : OTree, some u ∈ l → ProperTree u →
        (((computeNodeMassDistribution P M u).com.1 *
            (computeNodeMassDistribution P M u).totalMass,
          (computeNodeMassDistribution P M u).com.2.1 *
            (computeNodeMassDistribution P M u).totalMass,
          (computeNodeMassDistribution P M u).com.2.2 *
            (computeNodeMassDistribution P M u).totalMass) : Vec3) =
          subtreeWeightedSum P M u) →
      ProperChildren l → ∀ acc : Vec3,
      (massDistChildren P M l).foldl
        (fun acc oc => match oc with
          | none => acc
          | some t =>
            (acc.1 + t.com.1 * t.totalMass, acc.2.1 + t.com.2.1 * t.totalMass,
             acc.2.2 + t.com.2.2 * t.totalMass)) acc =
        acc + subtreeWeightedSumList P M l := by
  intro l
  induction l with
  | nil =>
    intro _ _ acc
    simp [massDistChildren, subtreeWeightedSumList]
  | cons oc r ihr =>
    intro hmem hpc acc
    cases oc with
    | none =>
      simp only [massDistChildren, List.foldl_cons, subtreeWeightedSumList]
      exact ihr (fun u hu hp => hmem u (List.mem_cons_of_mem _ hu) hp)
        (by simpa [ProperChildren] using hpc) acc
    | some u =>
      simp only [massDistChildren, List.foldl_cons, subtreeWeightedSumList]
      simp only [ProperChildren] at hpc
      rw [ihr (fun u' hu' hp => hmem u' (List.mem_cons_of_mem _ hu') hp)
        hpc.2 _]
      rw [← hmem u (List.mem_cons_self _ _) hpc.1]
      refine Prod.ext ?_ (Prod.ext ?_ ?_) <;>
        simp [Prod.fst_add, Prod.snd_add] <;> ring

/-- Present children of proper child lists are proper. -/
theorem properChildren_mem :
    ∀ l : List (Option OTree), ProperChildren l →
      ∀ u : OTree, some u ∈ l → ProperTree u := by
  intro l
  induction l with
  | nil => intro _ u hu; cases hu
  | cons oc r ihr =>
    intro hpc u hu
    cases oc with
    | none =>
      simp only [ProperChildren] at hpc
      rcases List.mem_cons.mp hu with h | h
      · cases h
      · exact ihr hpc u h
    | some v =>
      simp only [ProperChildren] at hpc
      rcases List.mem_cons.mp hu with h | h
      · cases h
        exact hpc.1
      · exact ihr hpc.2 u h

/-- On proper trees with nonnegative masses, the aggregated centre of mass
scaled by the aggregated mass is the subtree mass-weighted position sum. -/
theorem massDist_com_weighted (P : List Vec3) (M : List ℝ)
    (hM : ∀ x ∈ M, 0 ≤ x) :
    ∀ t : OTree, ProperTree t →
      (((computeNodeMassDistribution P M t).com.1 *
          (computeNodeMassDistribution P M t).totalMass,
        (computeNodeMassDistribution P M t).com.2.1 *
          (computeNodeMassDistribution P M t).totalMass,
        (computeNodeMassDistribution P M t).com.2.2 *
          (computeNodeMassDistribution P M t).totalMass) : Vec3) =
        subtreeWeightedSum P M t := by
  intro t
  induction t using OTree.inductionOn with
  | h c s cm m pi ch ih =>
    intro hp
    have hps := hp
    simp only [ProperTree] at hps
    obtain ⟨hleaf, hch⟩ := hps
    by_cases hpi : 0 ≤ pi
    · rw [computeNodeMassDistribution]
      rw [if_pos hpi, OTree.totalMass_mk, OTree.com_mk]
      simp only [subtreeWeightedSum]
      rw [if_pos hpi, subtreeWeightedSumList_all_none P M ch (hleaf hpi)]
      refine Prod.ext ?_ (Prod.ext ?_ ?_) <;>
        simp [Prod.fst_add, Prod.snd_add] <;> ring
    · rw [computeNodeMassDistribution]
      rw [if_neg hpi, OTree.totalMass_mk, OTree.com_mk]
      simp only [subtreeWeightedSum]
      rw [if_neg hpi]
      rw [massDist_fold_total P M ch
        (fun u hu hp' => massDist_totalMass P M u hp') hch 0, zero_add]
      rw [massDist_fold_weighted P M ch ih hch (0, 0, 0)]
      set W := subtreeWeightedSumList P M ch with hW
      set T := subtreeMassSumList M ch with hT
      by_cases hpos : 0 < T
      · rw [if_pos hpos]
        have hT0 : T ≠ 0 := ne_of_gt hpos
        refine Prod.ext ?_ (Prod.ext ?_ ?_) <;>
          simp [Prod.fst_add, Prod.snd_add] <;> field_simp
      · rw [if_neg hpos]
        have hTnn : 0 ≤ T := subtreeMassSumList_nonneg M ch
          fun u hu => subtreeMassSum_nonneg M hM u
        have hT0 : T = 0 := le_antisymm (not_lt.mp hpos) hTnn
        have hWz : W = (0, 0, 0) := by
          rw [hW]
          refine subtreeWeightedSumList_zero P M ch fun u hu => ?_
          have hz : subtreeMassSum M u = 0 :=
            subtreeMassSumList_zero M hM ch
              (fun u' hu' => subtreeMassSum_nonneg M hM u')
              (hT.symm.trans hT0) u hu
          have hpu : ProperTree u := properChildren_mem ch hch u hu
          rw [← ih u hu hpu]
          rw [massDist_totalMass P M u hpu, hz]
          refine Prod.ext ?_ (Prod.ext ?_ ?_) <;> norm_num
        rw [hT0, hWz]
        refine Prod.ext ?_ (Prod.ext ?_ ?_) <;>
          simp [Prod.fst_add, Prod.snd_add]

/-- A zero-mass leaf (other than the particle itself) adds exactly zero. -/
theorem accel_zero_mass_leaf (P : List Vec3) (G theta softening : ℝ)
    (i : ℕ) (c : Vec3) (s : ℝ) (cm : Vec3) (pi : ℤ)
    (ch : List (Option OTree)) (acc : Vec3) (hpi : 0 ≤ pi)
    (hne : pi ≠ (i : ℤ)) :
    computeAccelerationFromTree P G theta softening i
      (.mk c s cm 0 pi ch) acc = acc := by
  rw [computeAccelerationFromTree]
  simp only [OTree.isLeaf, OTree.isEmpty, OTree.center_mk, OTree.size_mk,
    OTree.com_mk, OTree.totalMass_mk, OTree.particleIndex_mk,
    OTree.children_mk]
  rw [if_neg (by rintro ⟨h, -⟩; omega), if_pos (Or.inl hpi),
    if_neg (by rintro ⟨-, h⟩; exact hne h)]
  refine Prod.ext ?_ (Prod.ext ?_ ?_) <;> simp

/-- **C4 (amended).**  On proper trees — trees in which a node holding a
particle has no children, which the builder only guarantees for `N ≤ 2` —
the aggregation pass computes in every node the exact sum of the subtree's
particle masses, and (for nonnegative masses) a centre of mass whose
product with `total_mass` is the subtree's mass-weighted position sum, i.e.
the mass-weighted average wherever `total_mass > 0`.  A node that
aggregates to `total_mass = 0` behaves as follows: an internal node keeps
its prior `com` (`(0,0,0)` as built) and is skipped by the force evaluator
via `is_empty`; a leaf holding a zero-mass particle instead gets `com` equal
to that particle's position — not `(0,0,0)` — but still contributes exactly
zero acceleration. -/
theorem C4_mass_aggregation_amended :
    (∀ (P : List Vec3) (M : List ℝ) (t : OTree), ProperTree t →
      (computeNodeMassDistribution P M t).totalMass = subtreeMassSum M t) ∧
    (∀ (P : List Vec3) (M : List ℝ), (∀ x ∈ M, 0 ≤ x) →
      ∀ t : OTree, ProperTree t →
      (((computeNodeMassDistribution P M t).com.1 *
          (computeNodeMassDistribution P M t).totalMass,
        (computeNodeMassDistribution P M t).com.2.1 *
          (computeNodeMassDistribution P M t).totalMass,
        (computeNodeMassDistribution P M t).com.2.2 *
          (computeNodeMassDistribution P M t).totalMass) : Vec3) =
        subtreeWeightedSum P M t) ∧
    (∀ (P : List Vec3) (G theta softening : ℝ) (i : ℕ) (t : OTree)
      (acc : Vec3), t.isEmpty →
      computeAccelerationFromTree P G theta softening i t acc = acc) ∧
    (∀ (P : List Vec3) (M : List ℝ) (c : Vec3) (s : ℝ) (cm : Vec3) (m : ℝ)
      (pi : ℤ) (ch : List (Option OTree)), 0 ≤ pi →
      (computeNodeMassDistribution P M (.mk c s cm m pi ch)).com =
        P.getD pi.toNat (0, 0, 0)) ∧
    (∀ (P : List Vec3) (G theta softening : ℝ) (i : ℕ) (c : Vec3) (s : ℝ)
      (cm : Vec3) (pi : ℤ) (ch : List (Option OTree)) (acc : Vec3),
      0 ≤ pi → pi ≠ (i : ℤ) →
      computeAccelerationFromTree P G theta softening i
        (.mk c s cm 0 pi ch) acc = acc) := by
  refine ⟨massDist_totalMass, massDist_com_weighted, ?_, ?_,
    accel_zero_mass_leaf⟩
  · intro P G theta softening i t acc h
    obtain ⟨c, s, cm, m, pi, ch⟩ := t
    rw [computeAccelerationFromTree]
    rw [if_pos h]
  · intro P M c s cm m pi ch hpi
    rw [computeNodeMassDistribution]
    rw [if_pos hpi, OTree.com_mk]

/-- Witness for the amended C4 at concrete proper trees. -/
theorem C4_mass_aggregation_amended_witness :
    ((computeNodeMassDistribution [((2 : ℝ), 0, 0)] [5]
        (OTree.mk (0, 0, 0) 1 (0, 0, 0) 0 0 [])).totalMass =
      subtreeMassSum [5] (OTree.mk (0, 0, 0) 1 (0, 0, 0) 0 0 [])) ∧
    (((computeNodeMassDistribution [((2 : ℝ), 0, 0)] [5]
          (OTree.mk (0, 0, 0) 1 (0, 0, 0) 0 0 [])).com.1 *
        (computeNodeMassDistribution [((2 : ℝ), 0, 0)] [5]
          (OTree.mk (0, 0, 0) 1 (0, 0, 0) 0 0 [])).totalMass,
      (computeNodeMassDistribution [((2 : ℝ), 0, 0)] [5]
          (OTree.mk (0, 0, 0) 1 (0, 0, 0) 0 0 [])).com.2.1 *
        (computeNodeMassDistribution [((2 : ℝ), 0, 0)] [5]
          (OTree.mk (0, 0, 0) 1 (0, 0, 0) 0 0 [])).totalMass,
      (computeNodeMassDistribution [((2 : ℝ), 0, 0)] [5]
          (OTree.mk (0, 0, 0) 1 (0, 0, 0) 0 0 [])).com.2.2 *
        (computeNodeMassDistribution [((2 : ℝ), 0, 0)] [5]
          (OTree.mk (0, 0, 0) 1 (0, 0, 0) 0 0 [])).totalMass) =
      subtreeWeightedSum [((2 : ℝ), 0, 0)] [5]
        (OTree.mk (0, 0, 0) 1 (0, 0, 0) 0 0 [])) ∧
    (computeAccelerationFromTree [((0 : ℝ), 0, 0)] 1 (1 / 2) 1 0
      (OTree.mk (0, 0, 0) 1 (0, 0, 0) 0 (-1) []) (4, 5, 6) = (4, 5, 6)) ∧
    ((computeNodeMassDistribution [((2 : ℝ), 0, 0)] [0]
        (OTree.mk (0, 0, 0) 1 (0, 0, 0) 0 0 [])).com = ((2 : ℝ), 0, 0)) ∧
    (computeAccelerationFromTree [((0 : ℝ), 0, 0)] 1 (1 / 2) 1 0
      (OTree.mk (0, 0, 0) 1 (7, 0, 0) 0 1 []) (4, 5, 6) = (4, 5, 6)) := by
  have hproper : ProperTree (OTree.mk (0, 0, 0) 1 (0, 0, 0) 0 0 []) := by
    simp [ProperTree, ProperChildren]
  refine ⟨C4_mass_aggregation_amended.1 [((2 : ℝ), 0, 0)] [5] _ hproper,
    C4_mass_aggregation_amended.2.1 [((2 : ℝ), 0, 0)] [5]
      (by intro x hx; simp at hx; norm_num [hx]) _ hproper,
    C4_mass_aggregation_amended.2.2.1 [((0 : ℝ), 0, 0)] 1 (1 / 2) 1 0 _ _
      (by exact ⟨by norm_num, rfl⟩), ?_,
    C4_mass_aggregation_amended.2.2.2.2 [((0 : ℝ), 0, 0)] 1 (1 / 2) 1 0
      (0, 0, 0) 1 (7, 0, 0) 1 [] (4, 5, 6) (by norm_num) (by norm_num)⟩
  have h := C4_mass_aggregation_amended.2.2.2.1 [((2 : ℝ), 0, 0)] [0]
    (0, 0, 0) 1 (0, 0, 0) 0 0 [] (by norm_num)
  rw [h]
  rfl

/-! ### Claim C6: insertion does not terminate on coincident particles -/

theorem getD_replicate_self {α : Type} (a : α) (k o : ℕ) :
    (List.replicate k a).getD o a = a := by
  by_cases h : o < k
  · rw [List.getD_eq_getElem _ _ (by simpa using h)]
    simp
  · rw [List.getD_eq_default _ _ (by simpa using le_of_not_lt h)]

theorem getOctant_lt_8 (p c : Vec3) : getOctant p c < 8 := by
  unfold getOctant
  split <;> split <;> split <;> norm_num

/-- Inserting a particle whose position coincides with the particle stored
in a pure leaf recurses forever: for every fuel bound the fuel-indexed
insertion fails, whatever the leaf's centre and size. -/
theorem insert_coincident_none (P : List Vec3) (i j : ℕ)
    (hpos : P.getD i (0, 0, 0) = P.getD j (0, 0, 0)) :
    ∀ (n : ℕ) (c : Vec3) (s : ℝ),
      insertParticleIntoTree P n
        (OTree.mk c s (0, 0, 0) 0 (j : ℤ) (List.replicate 8 none)) i = none := by
  intro n
  induction n with
  | zero => intro c s; rfl
  | succ n ih =>
    intro c s
    rw [insertParticleIntoTree]
    rw [if_neg (by
      rintro ⟨h, -⟩
      rw [OTree.particleIndex_mk] at h
      omega)]
    have hleaf : (OTree.mk c s (0, 0, 0) 0 (j : ℤ)
        (List.replicate 8 none)).isLeaf := by
      rw [OTree.isLeaf_mk]
      omega
    rw [if_pos hleaf]
    simp only [OTree.particleIndex_mk, OTree.withIndex_mk, OTree.center_mk,
      OTree.size_mk, Int.toNat_natCast]
    set o := getOctant (P.getD j (0, 0, 0)) c with ho
    have hchild : (OTree.mk c s (0, 0, 0) 0 (-1)
        (List.replicate 8 none)).getChild o = none := by
      rw [OTree.getChild, OTree.children_mk]
      exact getD_replicate_self none 8 o
    rw [hchild]
    simp only [Option.getD_none, Option.getD_some]
    cases n with
    | zero =>
      rfl
    | succ m =>
      rw [insert_into_empty P m (OTree.newNode
        (getOctantCenter c s o) (s * (1 / 2))) j
        (by norm_num [OTree.newNode, OTree.isEmpty])]
      simp only [OTree.newNode, OTree.withIndex_mk, OTree.setChild_mk,
        OTree.center_mk]
      rw [hpos, ← ho]
      have hget : ((OTree.mk c s (0, 0, 0) 0 (-1)
          ((List.replicate 8 (none : Option OTree)).set o
            (some (OTree.mk (getOctantCenter c s o) (s * (1 / 2)) (0, 0, 0) 0
              (j : ℤ) (List.replicate 8 none))))).getChild o) =
          some (OTree.mk (getOctantCenter c s o) (s * (1 / 2)) (0, 0, 0) 0
            (j : ℤ) (List.replicate 8 none)) := by
        rw [OTree.getChild, OTree.children_mk]
        exact getD_set_self _ o _ none (by simpa using getOctant_lt_8 _ c)
      rw [hget]
      simp only [Option.getD_some]
      rw [ih (getOctantCenter c s o) (s * (1 / 2))]

/-- **C6 counterexample.**  Two particles at exactly the origin: inserting
the second into the leaf holding the first fails for the generous recursion
budget 64 — there is no depth cap, the recursion would never return. -/
theorem C6_counterexample :
    insertParticleIntoTree [((0 : ℝ), 0, 0), ((0 : ℝ), 0, 0)] 64
      (OTree.mk (0, 0, 0) 0 (0, 0, 0) 0 0 (List.replicate 8 none)) 1 = none :=
  insert_coincident_none [((0 : ℝ), 0, 0), ((0 : ℝ), 0, 0)] 1 0 rfl 64
    (0, 0, 0) 0

/-- **C6 (amended).**  Octree insertion has no depth cap: inserting a
particle whose position exactly equals that of the particle stored in a
pure leaf does not terminate — for every fuel bound `n` (each source-level
recursive call costs one unit) the fuel-indexed insertion returns `none`,
whatever the leaf's cube centre and edge length. -/
theorem C6_no_depth_cap (P : List Vec3) (i j : ℕ)
    (hpos : P.getD i (0, 0, 0) = P.getD j (0, 0, 0)) (n : ℕ) (c : Vec3)
    (s : ℝ) :
    insertParticleIntoTree P n
      (OTree.mk c s (0, 0, 0) 0 (j : ℤ) (List.replicate 8 none)) i = none :=
  insert_coincident_none P i j hpos n c s

/-- Witness for the amended C6 at a distinct concrete input. -/
theorem C6_no_depth_cap_witness :
    insertParticleIntoTree [((1 : ℝ), 2, 3), ((1 : ℝ), 2, 3)] 50
      (OTree.mk (1, 2, 3) 5 (0, 0, 0) 0 0 (List.replicate 8 none)) 1 = none :=
  C6_no_depth_cap [((1 : ℝ), 2, 3), ((1 : ℝ), 2, 3)] 1 0 rfl 50 (1, 2, 3) 5

/-! ### Claim C5: evaluation of the merge-law pipeline -/

theorem c5_insert0 :
    insertParticleIntoTree c5P 10 (OTree.newNode (3 / 2, 0, 0) (33 / 10)) 0 =
    some (OTree.mk (3 / 2, 0, 0) (33 / 10) (0, 0, 0) 0 0
      (List.replicate 8 none)) := by
  rw [show (10 : ℕ) = 9 + 1 from rfl,
    insert_into_empty c5P 9 (OTree.newNode (3 / 2, 0, 0) (33 / 10)) 0
      (by norm_num [OTree.isEmpty, OTree.newNode])]
  rfl

theorem c5_insert1 :
    insertParticleIntoTree c5P 10
      (OTree.mk (3 / 2, 0, 0) (33 / 10) (0, 0, 0) 0 0 (List.replicate 8 none)) 1 =
    some c5Tree := by
  rw [show (10 : ℕ) = 9 + 1 from rfl]
  rw [insertParticleIntoTree]
  rw [if_neg (by rintro ⟨h, -⟩; norm_num at h)]
  norm_num [OTree.isLeaf, OTree.withIndex, OTree.getChild, OTree.setChild,
    getOctant, getOctantCenter, c5P,
    show (9 : ℕ) = 8 + 1 from rfl, insert_into_empty, OTree.newNode,
    OTree.isEmpty, c5Tree, c5Children, c5Leaf0, c5Leaf1,
    show List.replicate 8 (none : Option OTree) =
      [none, none, none, none, none, none, none, none] from rfl]

theorem c5_bbox_min :
    c5P.foldl
      (fun acc p => (min acc.1 p.1, min acc.2.1 p.2.1, min acc.2.2 p.2.2))
      (floatMax, floatMax, floatMax) = ((0 : ℝ), 0, 0) := by
  have hmin : min floatMax (0 : ℝ) = 0 := by
    rw [min_def]
    norm_num [floatMax]
  simp only [c5P, List.foldl_cons, List.foldl_nil]
  norm_num [hmin]

theorem c5_bbox_max :
    c5P.foldl
      (fun acc p => (max acc.1 p.1, max acc.2.1 p.2.1, max acc.2.2 p.2.2))
      (-floatMax, -floatMax, -floatMax) = ((3 : ℝ), 0, 0) := by
  have hmax : max (-floatMax) (0 : ℝ) = 0 := by
    rw [max_def]
    norm_num [floatMax]
  simp only [c5P, List.foldl_cons, List.foldl_nil]
  norm_num [hmax]

theorem c5_build : buildOctree c5P 10 = some c5Tree := by
  rw [buildOctree]
  rw [if_neg (by norm_num [c5P])]
  rw [c5_bbox_min, c5_bbox_max]
  rw [show List.range c5P.length = [0, 1] from rfl]
  simp only [List.foldl_cons, List.foldl_nil, Option.some_bind]
  norm_num [max_def]
  show (insertParticleIntoTree c5P 10
      (OTree.newNode (3 / 2, 0, 0) (33 / 10)) 0).bind
      (fun a => insertParticleIntoTree c5P 10 a 1) = some c5Tree
  rw [c5_insert0]
  simp only [Option.some_bind]
  exact c5_insert1

theorem c5_massdist :
    computeNodeMassDistribution c5P c5M c5Tree = c5TreeAgg := by
  rw [c5Tree, c5TreeAgg, c5Children, c5ChildrenAgg, c5Leaf0, c5Leaf1,
    c5Leaf0A, c5Leaf1A]
  rw [computeNodeMassDistribution]
  rw [if_neg (by norm_num)]
  simp only [massDistChildren]
  rw [computeNodeMassDistribution, computeNodeMassDistribution]
  rw [if_pos (by norm_num : (0 : ℤ) ≤ 0), if_pos (by norm_num : (0 : ℤ) ≤ 1)]
  norm_num [c5P, c5M, show Int.toNat 0 = 0 from rfl,
    show Int.toNat 1 = 1 from rfl, List.foldl_cons, List.foldl_nil]

theorem c5_notopen8 : ¬(33 / 10 / Real.sqrt 8 < (1 : ℝ) / 2) := by
  have h8 : Real.sqrt 8 ≤ 33 / 5 := by
    have h := Real.sqrt_le_sqrt (show (8 : ℝ) ≤ (33 / 5) ^ 2 by norm_num)
    rwa [Real.sqrt_sq (by norm_num : (0 : ℝ) ≤ 33 / 5)] at h
  have hpos : (0 : ℝ) < Real.sqrt 8 := Real.sqrt_pos.mpr (by norm_num)
  rw [not_lt, le_div_iff₀ hpos]
  nlinarith

theorem c5_notopen5 : ¬(33 / 10 / Real.sqrt 5 < (1 : ℝ) / 2) := by
  have h5 : Real.sqrt 5 ≤ 33 / 5 := by
    have h := Real.sqrt_le_sqrt (show (5 : ℝ) ≤ (33 / 5) ^ 2 by norm_num)
    rwa [Real.sqrt_sq (by norm_num : (0 : ℝ) ≤ 33 / 5)] at h
  have hpos : (0 : ℝ) < Real.sqrt 5 := Real.sqrt_pos.mpr (by norm_num)
  rw [not_lt, le_div_iff₀ hpos]
  nlinarith

theorem c5_accel0 :
    computeAccelerationFromTree c5P 1 (1 / 2) 2 0 c5TreeAgg (0, 0, 0) = c5A0 := by
  rw [c5TreeAgg]
  rw [computeAccelerationFromTree]
  rw [if_neg (by rintro ⟨-, h⟩; norm_num at h)]
  norm_num [OTree.isLeaf, OTree.isEmpty, c5P, c5A0, c5ChildrenAgg, c5Leaf0A,
    c5Leaf1A, accelChildren, computeAccelerationFromTree, c5_notopen8]
  ring

theorem c5_accel1 :
    computeAccelerationFromTree c5P 1 (1 / 2) 2 1 c5TreeAgg (0, 0, 0) = c5A1 := by
  rw [c5TreeAgg]
  rw [computeAccelerationFromTree]
  rw [if_neg (by rintro ⟨-, h⟩; norm_num at h)]
  norm_num [OTree.isLeaf, OTree.isEmpty, c5P, c5A1, c5ChildrenAgg, c5Leaf0A,
    c5Leaf1A, accelChildren, computeAccelerationFromTree, c5_notopen5]
  ring

theorem c5_accels :
    PhysicsEngine.compute_accelerations_barnes_hut 10 c5Engine =
      some c5EngineAcc := by
  rw [PhysicsEngine.compute_accelerations_barnes_hut]
  rw [if_neg (by norm_num [c5Engine, ParticleSystem.size, c5P])]
  rw [show c5Engine.particles.positions = c5P from rfl, c5_build]
  dsimp only
  rw [show c5Engine.particles.masses = c5M from rfl, c5_massdist]
  rw [show List.range c5Engine.particles.size = [0, 1] from rfl]
  simp only [List.map_cons, List.map_nil]
  rw [show c5Engine.G = 1 from rfl, show c5Engine.theta = 1 / 2 from rfl,
    show c5Engine.softening = 2 from rfl]
  rw [c5_accel0, c5_accel1]
  rfl

theorem c5_verlet (dt : ℝ) :
    c5EngineAcc.integrate_verlet dt = c5Verlet dt := by
  rw [PhysicsEngine.integrate_verlet]
  simp only [c5EngineAcc, c5Verlet, ParticleSystem.size, c5P, c5V, c5M, c5A0,
    c5A1, List.mapIdx_cons, List.mapIdx_nil, List.getD_cons_zero,
    List.getD_cons_succ]
  norm_num [c5Pos0, c5Pos1, Prod.ext_iff]

theorem collide_pair_scan (P : List Vec3) (cd2 : ℝ) (v0 v1 : Vec3) (m0 m1 : ℝ)
    (hc : ((P.getD 0 (0, 0, 0)).1 - (P.getD 1 (0, 0, 0)).1) *
        ((P.getD 0 (0, 0, 0)).1 - (P.getD 1 (0, 0, 0)).1) +
        ((P.getD 0 (0, 0, 0)).2.1 - (P.getD 1 (0, 0, 0)).2.1) *
        ((P.getD 0 (0, 0, 0)).2.1 - (P.getD 1 (0, 0, 0)).2.1) +
        ((P.getD 0 (0, 0, 0)).2.2 - (P.getD 1 (0, 0, 0)).2.2) *
        ((P.getD 0 (0, 0, 0)).2.2 - (P.getD 1 (0, 0, 0)).2.2) < cd2) :
    (List.range 2).foldl (collideOuter P cd2 2)
      ⟨[v0, v1], [m0, m1], [false, false]⟩ =
      ⟨[((v0.1 * m0 + v1.1 * m1) / (m0 + m1),
         (v0.2.1 * m0 + v1.2.1 * m1) / (m0 + m1),
         (v0.2.2 * m0 + v1.2.2 * m1) / (m0 + m1)), v1],
       [m0 + m1, m1], [false, true]⟩ := by
  have h1 : collideOuter P cd2 2 ⟨[v0, v1], [m0, m1], [false, false]⟩ 0 =
      collideStep P cd2 0 ⟨[v0, v1], [m0, m1], [false, false]⟩ 1 := by
    rw [collideOuter, if_neg (by simp)]
    rw [show List.range' (0 + 1) (2 - (0 + 1)) = [1] from rfl]
    simp only [List.foldl_cons, List.foldl_nil]
  have h2 : collideStep P cd2 0 ⟨[v0, v1], [m0, m1], [false, false]⟩ 1 =
      ⟨[((v0.1 * m0 + v1.1 * m1) / (m0 + m1),
         (v0.2.1 * m0 + v1.2.1 * m1) / (m0 + m1),
         (v0.2.2 * m0 + v1.2.2 * m1) / (m0 + m1)), v1],
       [m0 + m1, m1], [false, true]⟩ := by
    rw [collideStep, if_neg (by simp)]
    dsimp only
    rw [if_pos hc]
    simp [List.getD_cons_zero, List.getD_cons_succ]
  rw [show List.range 2 = [0, 1] from rfl]
  simp only [List.foldl_cons, List.foldl_nil]
  rw [h1, h2]
  rw [collideOuter, if_pos (by simp)]

theorem c5_collide (dt : ℝ)
    (H : ((c5Pos0 dt).1 - (c5Pos1 dt).1) * ((c5Pos0 dt).1 - (c5Pos1 dt).1) < 16) :
    (c5Verlet dt).handle_collisions = c5Result dt := by
  have hc : (([c5Pos0 dt, c5Pos1 dt].getD 0 (0, 0, 0)).1 -
        ([c5Pos0 dt, c5Pos1 dt].getD 1 (0, 0, 0)).1) *
        (([c5Pos0 dt, c5Pos1 dt].getD 0 (0, 0, 0)).1 -
        ([c5Pos0 dt, c5Pos1 dt].getD 1 (0, 0, 0)).1) +
        (([c5Pos0 dt, c5Pos1 dt].getD 0 (0, 0, 0)).2.1 -
        ([c5Pos0 dt, c5Pos1 dt].getD 1 (0, 0, 0)).2.1) *
        (([c5Pos0 dt, c5Pos1 dt].getD 0 (0, 0, 0)).2.1 -
        ([c5Pos0 dt, c5Pos1 dt].getD 1 (0, 0, 0)).2.1) +
        (([c5Pos0 dt, c5Pos1 dt].getD 0 (0, 0, 0)).2.2 -
        ([c5Pos0 dt, c5Pos1 dt].getD 1 (0, 0, 0)).2.2) *
        (([c5Pos0 dt, c5Pos1 dt].getD 0 (0, 0, 0)).2.2 -
        ([c5Pos0 dt, c5Pos1 dt].getD 1 (0, 0, 0)).2.2) <
        (2 : ℝ) * 2 * (2 * 2) := by
    rw [show ([c5Pos0 dt, c5Pos1 dt].getD 0 (0, 0, 0)) = c5Pos0 dt from rfl,
      show ([c5Pos0 dt, c5Pos1 dt].getD 1 (0, 0, 0)) = c5Pos1 dt from rfl,
      show (c5Pos0 dt).2.1 = 0 from rfl, show (c5Pos0 dt).2.2 = 0 from rfl,
      show (c5Pos1 dt).2.1 = 0 from rfl, show (c5Pos1 dt).2.2 = 0 from rfl]
    norm_num
    linarith [H]
  rw [PhysicsEngine.handle_collisions]
  dsimp only
  rw [show (c5Verlet dt).particles.size = 2 from rfl,
    show (c5Verlet dt).softening = 2 from rfl,
    show (c5Verlet dt).particles.positions = [c5Pos0 dt, c5Pos1 dt] from rfl,
    show (c5Verlet dt).particles.velocities =
      [((1 + 6 / (13 * Real.sqrt 13) * dt : ℝ), 0, 0),
       ((-1 + -(3 / (13 * Real.sqrt 13)) * dt : ℝ), 0, 0)] from rfl,
    show (c5Verlet dt).particles.masses = [(1 : ℝ), 2] from rfl,
    show (c5Verlet dt).particles.accelerations = [c5A0, c5A1] from rfl,
    show (c5Verlet dt).particles.types = [(0 : ℤ), 0] from rfl]
  rw [show List.replicate 2 false = [false, false] from rfl]
  rw [collide_pair_scan [c5Pos0 dt, c5Pos1 dt] (2 * 2 * (2 * 2)) _ _ 1 2 hc]
  dsimp only
  rw [show (List.range 2).reverse = [1, 0] from rfl]
  simp only [List.foldl_cons, List.foldl_nil]
  rw [if_pos (show ([false, true].getD 1 false) = true from rfl)]
  rw [if_neg (show ¬(([false, true].getD 0 false) = true) from by decide)]
  rw [PhysicsEngine.remove_particle]
  rw [if_neg (by norm_num [ParticleSystem.size])]
  rw [show c5Result dt =
    ⟨⟨[c5Pos0 dt], [((-(1 / 3) : ℝ), 0, 0)], [c5A0], [3], [0]⟩,
      .cpuSingleThread, 1, 2, 1 / 2, true⟩ from rfl]
  simp only [List.eraseIdx, PhysicsEngine.mk.injEq, ParticleSystem.mk.injEq,
    List.cons.injEq, Prod.mk.injEq]
  norm_num
  and_intros <;> first | rfl | trivial | ring

/-- **C5.** Merge law: with exactly two particles at `(0,0,0)` and
`(1.5·ε, 0, 0)` (here `ε = softening = 2`, so `(3,0,0)`), masses `1` and `2`,
velocities `(1,0,0)` and `(-1,0,0)`, and collisions enabled, one call to
`step` — for any `dt` for which the two Verlet-integrated positions are still
within the collision distance `2·ε`, e.g. `dt = 0` — produces particle count
`1`, mass `3`, and velocity `(-1/3, 0, 0)`, and the surviving particle keeps
the lower-indexed particle's (integrated) position. -/
theorem C5_merge_law (dt : ℝ)
    (H : ((c5Pos0 dt).1 - (c5Pos1 dt).1) * ((c5Pos0 dt).1 - (c5Pos1 dt).1) < 16) :
    c5Engine.step 10 dt = some (c5Result dt) ∧
    (c5Result dt).get_particle_count = 1 ∧
    (c5Result dt).particles.masses = [3] ∧
    (c5Result dt).particles.velocities = [((-(1 / 3) : ℝ), 0, 0)] ∧
    (c5Result dt).particles.positions = [c5Pos0 dt] := by
  refine ⟨?_, rfl, rfl, rfl, rfl⟩
  show PhysicsEngine.step_cpu_single_thread 10 c5Engine dt = some (c5Result dt)
  rw [PhysicsEngine.step_cpu_single_thread, c5_accels, Option.map_some']
  dsimp only
  rw [c5_verlet]
  rw [if_pos (show (c5Verlet dt).collisionsEnabled = true from rfl)]
  rw [c5_collide dt H]

/-- Witness for C5 at `dt = 0`: the hypothesis holds (`9 < 16`) and the merged
engine is exactly `c5Result 0`. -/
theorem C5_merge_law_witness :
    ((c5Pos0 0).1 - (c5Pos1 0).1) * ((c5Pos0 0).1 - (c5Pos1 0).1) < 16 ∧
    (c5Engine.step 10 0 = some (c5Result 0) ∧
     (c5Result 0).get_particle_count = 1 ∧
     (c5Result 0).particles.masses = [3] ∧
     (c5Result 0).particles.velocities = [((-(1 / 3) : ℝ), 0, 0)] ∧
     (c5Result 0).particles.positions = [c5Pos0 0]) := by
  have h : ((c5Pos0 0).1 - (c5Pos1 0).1) * ((c5Pos0 0).1 - (c5Pos1 0).1) < 16 := by
    norm_num [c5Pos0, c5Pos1]
  exact ⟨h, C5_merge_law 0 h⟩

end

end StellarForge
